import Mathlib

/-!
Shallow embedding of the chess rules engine in `game_logic.py`.

Conventions used throughout:
- board coordinates are integers; a Python `Cell(x, y)` carries `1 <= x, y <= 8`
  (enforced by the Python constructor).  Here `Cell` is a plain pair of integers
  and `Cell.valid` captures the constructor check; places where Python would
  raise `ValueError` on construction are modelled as explicit validity tests.
- the Python board is `board[y - 1][x - 1]`, a list of 8 rows of 8 optional
  figures; we keep exactly that list-of-lists representation.
- Python exceptions that reject a move are modelled with `Except State State`:
  `Except.error e` means the call raised, with `e` the authoritative state at
  the moment of the raise (so that atomicity of rejection is a real theorem,
  not an artifact of the embedding).
- `copy.copy`/`get_copy` clone the board and figures and rewire the
  figure-to-state back references; with value semantics the only observable
  field change is clearing `_is_original`.
-/

namespace Chess

/-- `sign` from game_logic.py. -/
def sign (n : Int) : Int := if n > 0 then 1 else if n < 0 then -1 else 0

/-- `Cell`: a board coordinate.  The Python constructor validates the range;
we keep the raw pair and expose the validation as `Cell.valid`. -/
structure Cell where
  x : Int
  y : Int
deriving DecidableEq, Repr

/-- The range check performed by the Python `Cell` constructor. -/
def Cell.valid (c : Cell) : Bool :=
  1 ≤ c.x && c.x ≤ 8 && 1 ≤ c.y && c.y ≤ 8

/-- `Move`: a pair of cells. -/
structure Move where
  cellFrom : Cell
  cellTo : Cell
deriving DecidableEq, Repr

/-- `EnumeratedMove`: a move plus the ply number at which it was recorded. -/
structure EnumeratedMove where
  cellFrom : Cell
  cellTo : Cell
  moveNumber : Nat
deriving DecidableEq, Repr

/-- The six concrete `Figure` subclasses. -/
inductive FigureKind
  | king
  | queen
  | bishop
  | knight
  | rook
  | pawn
deriving DecidableEq, Repr

/-- A `Figure`: subclass tag, color (1 white, -1 black), current position,
recorded move history and move count.  The Python back reference `_state` is
passed explicitly to every operation that needs board occupancy. -/
structure Figure where
  kind : FigureKind
  color : Int
  pos : Cell
  moves : List EnumeratedMove
  numberOfMoves : Nat
deriving DecidableEq, Repr

/-- `Figure.last_move`. -/
def Figure.last_move (f : Figure) : Option EnumeratedMove :=
  if f.numberOfMoves > 0 then f.moves.get? (f.numberOfMoves - 1) else none

/-- The board: `board[y - 1][x - 1]`, exactly as in the source. -/
abbrev Board := List (List (Option Figure))

/-- The game state.  `whiteKingPos`/`blackKingPos` are the cached king
positions `_white_king_position`/`_black_king_position`. -/
structure State where
  isGameOver : Bool
  winningSide : Int
  whiteKingPos : Cell
  blackKingPos : Cell
  board : Board
  moves : List EnumeratedMove
  numberOfMoves : Nat
  isOriginal : Bool
deriving DecidableEq, Repr

/-- `State.get_by_cell`: `self.board[cell.y - 1][cell.x - 1]`.  (For the valid
cells that Python ever constructs the `Int.toNat` clamping coincides with the
Python index arithmetic.) -/
def State.get_by_cell (s : State) (c : Cell) : Option Figure :=
  (s.board.getD (c.y - 1).toNat []).getD (c.x - 1).toNat none

/-- Write one square of the board. -/
def Board.setCell (b : Board) (c : Cell) (v : Option Figure) : Board :=
  b.set (c.y - 1).toNat ((b.getD (c.y - 1).toNat []).set (c.x - 1).toNat v)

/-- `self.board[cell.y - 1][cell.x - 1] = v` as a state transformer. -/
def State.set_by_cell (s : State) (c : Cell) (v : Option Figure) : State :=
  { s with board := s.board.setCell c v }

/-- `State.whose_move`: 1 if the ply counter is even, else -1. -/
def State.whose_move (s : State) : Int :=
  if s.numberOfMoves % 2 == 0 then 1 else -1

/-- `State.get_copy` starts from `copy.copy(self)`, a SHALLOW copy: the board
and the figures are re-created, but the `moves` attribute of the clone is the
same list object as the original's.  The value of the clone at creation time
is therefore the original with `_is_original` cleared; the aliasing of the
shared moves list is modelled at every append site by copying the clone's
moves list back into the authoritative state (see `syncMoves`). -/
def State.get_copy (s : State) : State := { s with isOriginal := false }

/-- `State.get_king_position_by_color` (callers always pass 1 or -1). -/
def State.get_king_position_by_color (s : State) (color : Int) : Cell :=
  if color == 1 then s.whiteKingPos else s.blackKingPos

/-- `State.change_king_position_by_color`. -/
def State.change_king_position_by_color (s : State) (c : Cell) (color : Int) : State :=
  if color == 1 then { s with whiteKingPos := c } else { s with blackKingPos := c }

/-- Python `range(a, b)` over integers, as the list `[a, a+1, ..., b-1]`. -/
def intRange (a b : Int) : List Int :=
  (List.range (b - a).toNat).map (fun i => a + i)

/-- All 64 cells in the scan order `for y in range(1, 9): for x in range(1, 9)`. -/
def allCells : List Cell :=
  (intRange 1 9).flatMap (fun y => (intRange 1 9).map (fun x => ⟨x, y⟩))

/-- `King._is_cell_under_attack`. -/
def kingAttack (f : Figure) (cell : Cell) : Bool :=
  if f.pos = cell then false
  else (f.pos.x - cell.x).natAbs ≤ 1 && (f.pos.y - cell.y).natAbs ≤ 1

/-- The `while True` ray walk of `Queen`/`Bishop`: step by `(dx, dy)` from
`(x, y)`; reaching `target` gives `true`, hitting an occupied square gives
`false`.  On every call the walk needs at most 7 steps (source and target are
valid cells on a common line), so fuel 8 is exact. -/
def rayReaches (s : State) (target : Cell) : Int → Int → Int → Int → Nat → Bool
  | _, _, _, _, 0 => false
  | x, y, dx, dy, n + 1 =>
    let x1 := x + dx
    let y1 := y + dy
    if (⟨x1, y1⟩ : Cell) = target then true
    else if (s.get_by_cell ⟨x1, y1⟩).isSome then false
    else rayReaches s target x1 y1 dx dy n

/-- The shared diagonal walk of `Queen._is_cell_under_attack` and
`Bishop._is_cell_under_attack`. -/
def diagonalReaches (s : State) (f : Figure) (cell : Cell) : Bool :=
  rayReaches s cell f.pos.x f.pos.y (sign (cell.x - f.pos.x)) (sign (cell.y - f.pos.y)) 8

/-- The vertical branch shared by `Queen` and `Rook`: every cell strictly
between the two y coordinates (on file `cell.x`) is empty. -/
def verticalClear (s : State) (fpos cell : Cell) : Bool :=
  (intRange (min fpos.y cell.y + 1) (max fpos.y cell.y)).all
    (fun y => (s.get_by_cell ⟨cell.x, y⟩).isNone)

/-- The horizontal branch shared by `Queen` and `Rook`. -/
def horizontalClear (s : State) (fpos cell : Cell) : Bool :=
  (intRange (min fpos.x cell.x + 1) (max fpos.x cell.x)).all
    (fun x => (s.get_by_cell ⟨x, cell.y⟩).isNone)

/-- `Queen._is_cell_under_attack`. -/
def queenAttack (s : State) (f : Figure) (cell : Cell) : Bool :=
  if f.pos = cell then false
  else if (f.pos.x - cell.x).natAbs == (f.pos.y - cell.y).natAbs then
    diagonalReaches s f cell
  else if f.pos.x == cell.x then verticalClear s f.pos cell
  else if f.pos.y == cell.y then horizontalClear s f.pos cell
  else false

/-- `Bishop._is_cell_under_attack`. -/
def bishopAttack (s : State) (f : Figure) (cell : Cell) : Bool :=
  if f.pos = cell then false
  else if !((f.pos.x - cell.x).natAbs == (f.pos.y - cell.y).natAbs) then false
  else diagonalReaches s f cell

/-- `Knight._is_cell_under_attack`: `sorted([|dx|, |dy|]) == [1, 2]`. -/
def knightAttack (f : Figure) (cell : Cell) : Bool :=
  min (f.pos.x - cell.x).natAbs (f.pos.y - cell.y).natAbs == 1 &&
  max (f.pos.x - cell.x).natAbs (f.pos.y - cell.y).natAbs == 2

/-- `Pawn._is_cell_under_attack`:
`abs(pos.x - cell.x) == 1 and pos.y == cell.y + color`. -/
def pawnAttack (f : Figure) (cell : Cell) : Bool :=
  (f.pos.x - cell.x).natAbs == 1 && f.pos.y == cell.y + f.color

/-- `Rook._is_cell_under_attack`. -/
def rookAttack (s : State) (f : Figure) (cell : Cell) : Bool :=
  if f.pos = cell then false
  else if f.pos.x == cell.x then verticalClear s f.pos cell
  else if f.pos.y == cell.y then horizontalClear s f.pos cell
  else false

/-- `Figure._is_cell_under_attack`, dispatched on the subclass. -/
def Figure.is_cell_under_attack (f : Figure) (s : State) (cell : Cell) : Bool :=
  match f.kind with
  | .king => kingAttack f cell
  | .queen => queenAttack s f cell
  | .bishop => bishopAttack s f cell
  | .knight => knightAttack f cell
  | .rook => rookAttack s f cell
  | .pawn => pawnAttack f cell

/-- `State._is_cell_under_attack`: scan all 64 squares for an attacker of the
given color that covers `cell` (callers always pass color 1 or -1, so the
Python color guard never fires). -/
def State.is_cell_under_attack (s : State) (cell : Cell) (color : Int) : Bool :=
  allCells.any fun c =>
    match s.get_by_cell c with
    | none => false
    | some f => f.color == color && f.is_cell_under_attack s cell

/-- `State._is_king_in_check`: the cached king position of `color` is attacked
by the opposite color. -/
def State.is_king_in_check (s : State) (color : Int) : Bool :=
  s.is_cell_under_attack (s.get_king_position_by_color color) (color * -1)

/-- The updated figure built inside `Figure._make_move`: `copy.copy(self)`
relocated to `cell`, with the new `EnumeratedMove` appended to its copied
history (ply number `state.number_of_moves + 1`). -/
def Figure.moved (f : Figure) (s : State) (cell : Cell) : Figure :=
  { f with
    pos := cell
    moves := f.moves ++ [⟨f.pos, cell, s.numberOfMoves + 1⟩]
    numberOfMoves := f.numberOfMoves + 1 }

/-- `Figure._make_move`: record the move on the figure copy and in the state
(`_add_move`), then write the destination square and clear the source square,
in that order. -/
def Figure.unchecked_move (f : Figure) (s : State) (cell : Cell) : State :=
  let s1 : State := { s with
    moves := s.moves ++ [⟨f.pos, cell, s.numberOfMoves + 1⟩]
    numberOfMoves := s.numberOfMoves + 1 }
  (s1.set_by_cell cell (some (f.moved s cell))).set_by_cell f.pos none

/-- `State._make_move`: re-fetch the occupant of the source square and move it
without any checks; `none` models the `ValueError` on an empty source. -/
def State.unchecked_move (s : State) (m : Move) : Option State :=
  match s.get_by_cell m.cellFrom with
  | none => none
  | some f => some (f.unchecked_move s m.cellTo)

/-- `Figure._make_move_on_copied`: clone the state and replay the candidate
move there (note the clone re-fetches whatever occupies `self.pos`). -/
def Figure.move_on_copy (f : Figure) (s : State) (cell : Cell) : Option State :=
  s.get_copy.unchecked_move ⟨f.pos, cell⟩

/-- Because `get_copy` shares the moves LIST between clone and original,
every `_add_move` performed on a clone appends into the authoritative global
history.  `syncMoves s sc` is the authoritative state `s` after the clone
`sc` has performed its appends: the same state with the moves list taken
from the clone. -/
def syncMoves (s sc : State) : State := { s with moves := sc.moves }

/-- `Pawn.transform_to_queen`: replace the pawn sitting at `cell` by a queen
of the same color at the same position, inheriting move history and count.
(An empty `cell` would be an `AttributeError` in Python; every caller has just
written a figure to `cell`, so the `none` arm is unreachable.) -/
def transform_to_queen (s : State) (cell : Cell) : State :=
  match s.get_by_cell cell with
  | none => s
  | some p => s.set_by_cell p.pos (some { p with kind := .queen })

/-- The rook relocation performed by both the simulated and the committed
castling: `board[rookNew] = board[rPos]; board[rookNew].pos = rookNew;
board[rPos] = None`.  When `board[rPos]` is empty Python raises an
`AttributeError` on the second statement; the error value carries the state
mutated by the first statement. -/
def rookShift (st : State) (rPos rookNew : Cell) : Except State State :=
  match (st.set_by_cell rookNew (st.get_by_cell rPos)).get_by_cell rookNew with
  | none => .error (st.set_by_cell rookNew (st.get_by_cell rPos))
  | some g =>
    .ok (((st.set_by_cell rookNew (st.get_by_cell rPos)).set_by_cell rookNew
        (some { g with pos := rookNew })).set_by_cell rPos none)

/-- The transit square of the castling rook:
`Cell(pos.x + sign(cell.x - pos.x), cell.y)`. -/
def castleRookNew (f : Figure) (cell : Cell) : Cell :=
  ⟨f.pos.x + sign (cell.x - f.pos.x), cell.y⟩

/-- The destination square of the castling king:
`Cell(pos.x + 2 * sign(cell.x - pos.x), cell.y)`. -/
def castleKingNew (f : Figure) (cell : Cell) : Cell :=
  ⟨f.pos.x + 2 * sign (cell.x - f.pos.x), cell.y⟩

/-- The castling branch of `King.make_move` (`r` is the never-moved rook found
on the destination square; the Python `Cell` constructions for the new
rook/king squares are modelled by explicit validity checks). -/
def King.castle (s : State) (f r : Figure) (cell : Cell) : Except State State :=
  if !((intRange (min f.pos.x cell.x + 1) (max f.pos.x cell.x)).all
      (fun x => (s.get_by_cell ⟨x, cell.y⟩).isNone)) then .error s
  else if s.is_king_in_check f.color then .error s
  else if !(castleRookNew f cell).valid then .error s
  else if !(castleKingNew f cell).valid then .error s
  else if s.is_cell_under_attack (castleRookNew f cell) (f.color * -1) then .error s
  else
    match f.move_on_copy s (castleKingNew f cell) with
    | none => .error s
    | some sc0 =>
      match rookShift (sc0.change_king_position_by_color (castleKingNew f cell) f.color)
          r.pos (castleRookNew f cell) with
      | .error _ => .error (syncMoves s sc0)
      | .ok sc =>
        if sc.is_king_in_check f.color then .error (syncMoves s sc0)
        else
          match rookShift
              (State.change_king_position_by_color
                (f.unchecked_move (syncMoves s sc0) (castleKingNew f cell))
                (castleKingNew f cell) f.color)
              r.pos (castleRookNew f cell) with
          | .error e => .error e
          | .ok s2 => .ok s2

/-- The non-castling part of `King.make_move`. -/
def King.normal (s : State) (f : Figure) (cell : Cell) : Except State State :=
  if !(kingAttack f cell) then .error s
  else if (match s.get_by_cell cell with
           | some g => g.color == f.color
           | none => false) then .error s
  else
    match f.move_on_copy s cell with
    | none => .error s
    | some sc0 =>
      if (sc0.change_king_position_by_color cell f.color).is_king_in_check f.color then
        .error (syncMoves s sc0)
      else
        .ok ((f.unchecked_move (syncMoves s sc0) cell).change_king_position_by_color
          cell f.color)

/-- `King.make_move`: castling is attempted whenever the destination holds a
never-moved rook (of either color) and the king has never moved. -/
def King.make_move (s : State) (f : Figure) (cell : Cell) : Except State State :=
  match s.get_by_cell cell with
  | some r =>
    if r.kind = .rook ∧ r.numberOfMoves = 0 ∧ f.numberOfMoves = 0 then
      King.castle s f r cell
    else King.normal s f cell
  | none => King.normal s f cell

/-- The common body of `Queen/Bishop/Knight/Rook.make_move`: geometric test,
speculative clone, self-check test, commit.  None of these four subclasses
checks the destination occupant. -/
def slideCommit (s : State) (f : Figure) (cell : Cell) (geo : Bool) : Except State State :=
  if !geo then .error s
  else
    match f.move_on_copy s cell with
    | none => .error s
    | some sc =>
      if sc.is_king_in_check f.color then .error (syncMoves s sc)
      else .ok (f.unchecked_move (syncMoves s sc) cell)

/-- `Queen.make_move`. -/
def Queen.make_move (s : State) (f : Figure) (cell : Cell) : Except State State :=
  slideCommit s f cell (queenAttack s f cell)

/-- `Bishop.make_move`. -/
def Bishop.make_move (s : State) (f : Figure) (cell : Cell) : Except State State :=
  slideCommit s f cell (bishopAttack s f cell)

/-- `Knight.make_move`. -/
def Knight.make_move (s : State) (f : Figure) (cell : Cell) : Except State State :=
  slideCommit s f cell (knightAttack f cell)

/-- `Rook.make_move`. -/
def Rook.make_move (s : State) (f : Figure) (cell : Cell) : Except State State :=
  slideCommit s f cell (rookAttack s f cell)

/-- The promotion trigger computed by `Pawn.make_move`. -/
def isTransformation (f : Figure) (cell : Cell) : Bool :=
  (cell.y == 8 && f.color == 1) || (cell.y == 1 && f.color == -1)

/-- `Pawn.make_move`. -/
def Pawn.make_move (s : State) (f : Figure) (cell : Cell) : Except State State :=
  if f.pos.x == cell.x &&
      (f.pos.y + f.color == cell.y ||
       (f.numberOfMoves == 0 && f.pos.y + 2 * f.color == cell.y)) then
    -- straight advance, one step or (from the initial position) two steps;
    -- only the destination square is tested for emptiness
    if (s.get_by_cell cell).isSome then .error s
    else
      match f.move_on_copy s cell with
      | none => .error s
      | some sc0 =>
        if (if isTransformation f cell then transform_to_queen sc0 cell
            else sc0).is_king_in_check f.color then .error (syncMoves s sc0)
        else
          .ok (if isTransformation f cell then
                transform_to_queen (f.unchecked_move (syncMoves s sc0) cell) cell
              else f.unchecked_move (syncMoves s sc0) cell)
  else if (f.pos.x - cell.x).natAbs == 1 && f.pos.y + f.color == cell.y then
    match s.get_by_cell cell with
    | some g =>
      -- ordinary diagonal capture
      if g.color == f.color then .error s
      else
        match f.move_on_copy s cell with
        | none => .error s
        | some sc0 =>
          if (if isTransformation f cell then transform_to_queen sc0 cell
              else sc0).is_king_in_check f.color then .error (syncMoves s sc0)
          else
            .ok (if isTransformation f cell then
                  transform_to_queen (f.unchecked_move (syncMoves s sc0) cell) cell
                else f.unchecked_move (syncMoves s sc0) cell)
    | none =>
      -- en passant: the square behind the target must hold an enemy pawn whose
      -- single recorded move happened on the immediately preceding ply
      match s.get_by_cell ⟨cell.x, f.pos.y⟩ with
      | none => .error s
      | some g =>
        if g.color == f.color then .error s
        else if !(g.kind == .pawn) then .error s
        else if !(g.numberOfMoves == 1) then .error s
        else
          match g.last_move with
          | none => .error s
          | some lm =>
            if !(s.numberOfMoves == lm.moveNumber) then .error s
            else
              match f.move_on_copy s cell with
              | none => .error s
              | some sc0 =>
                if (sc0.set_by_cell g.pos none).is_king_in_check f.color then
                  .error (syncMoves s sc0)
                else .ok ((f.unchecked_move (syncMoves s sc0) cell).set_by_cell g.pos none)
  else .error s

/-- `Figure.make_move`, dispatched on the subclass. -/
def Figure.make_move (f : Figure) (s : State) (cell : Cell) : Except State State :=
  match f.kind with
  | .king => King.make_move s f cell
  | .queen => Queen.make_move s f cell
  | .bishop => Bishop.make_move s f cell
  | .knight => Knight.make_move s f cell
  | .rook => Rook.make_move s f cell
  | .pawn => Pawn.make_move s f cell

/-- `State.make_move` without the trailing game-over re-evaluation: source
square must be occupied by a figure of the side to move, which then validates
and commits.  This is exactly what `make_move` does on a state copy (whose
`_is_original` flag is cleared). -/
def State.make_move_inner (s : State) (m : Move) : Except State State :=
  match s.get_by_cell m.cellFrom with
  | none => .error s
  | some f =>
    if f.color != s.whose_move then .error s
    else f.make_move s m.cellTo

/-- Success test for `Except State State` (the Python `try`/`except` around a
candidate move). -/
def moveOk : Except State State → Bool
  | .ok _ => true
  | .error _ => false

/-- One probe of a possible-move scan: `state_copy = self._state.get_copy()`
followed by `state_copy.make_move(...)` inside `try`.  The probe decision is
the clone's, but every append the clone performs goes through the shared
moves list, so the resulting list is copied back into the authoritative
state.  Clones have `_is_original` cleared, so their `make_move` is
`make_move_inner`. -/
def runProbe (s : State) (src c : Cell) : Bool × State :=
  match s.get_copy.make_move_inner ⟨src, c⟩ with
  | .ok s1 => (true, syncMoves s s1)
  | .error e => (false, syncMoves s e)

/-- Collect an accepted candidate in source order. -/
def probeStep (c : Cell) (ok : Bool) (acc : List Cell × State) : List Cell × State :=
  (if ok then c :: acc.1 else acc.1, acc.2)

/-- Probe a candidate list in order, threading the shared moves list. -/
def probeCells (src : Cell) : List Cell → State → List Cell × State
  | [], s => ([], s)
  | c :: rest, s =>
    match runProbe s src c with
    | (ok, s1) => probeStep c ok (probeCells src rest s1)

/-- The inherited `Figure.get_possible_moves` (all 64 squares, in scan
order), returning the accepted cells and the state polluted by the probes. -/
def Figure.get_possible_moves_st (f : Figure) (s : State) : List Cell × State :=
  probeCells f.pos allCells s

/-- `Knight.get_possible_moves`: the eight jump candidates, in source order;
an off-board candidate is skipped before its probe runs (the Python `Cell`
constructor raises inside the `try`). -/
def Knight.get_possible_moves_st (f : Figure) (s : State) : List Cell × State :=
  probeCells f.pos
    (([(f.pos.x - 1, f.pos.y + 2), (f.pos.x - 1, f.pos.y - 2),
      (f.pos.x + 1, f.pos.y + 2), (f.pos.x + 1, f.pos.y - 2),
      (f.pos.x + 2, f.pos.y - 1), (f.pos.x - 2, f.pos.y - 1),
      (f.pos.x + 2, f.pos.y + 1), (f.pos.x - 2, f.pos.y + 1)]).filterMap fun p =>
      if (⟨p.1, p.2⟩ : Cell).valid then some (⟨p.1, p.2⟩ : Cell) else none) s

/-- `Pawn.get_possible_moves`: only the three one-step-forward candidates are
scanned (the two-square first advance is absent from this list). -/
def Pawn.get_possible_moves_st (f : Figure) (s : State) : List Cell × State :=
  probeCells f.pos
    (([(f.pos.x, f.pos.y + f.color), (f.pos.x - 1, f.pos.y + f.color),
      (f.pos.x + 1, f.pos.y + f.color)]).filterMap fun p =>
      if (⟨p.1, p.2⟩ : Cell).valid then some (⟨p.1, p.2⟩ : Cell) else none) s

/-- `Figure.get_possible_moves`, with the `Knight`/`Pawn` overrides. -/
def Figure.possible_moves_st (f : Figure) (s : State) : List Cell × State :=
  match f.kind with
  | .knight => Knight.get_possible_moves_st f s
  | .pawn => Pawn.get_possible_moves_st f s
  | _ => Figure.get_possible_moves_st f s

/-- `State.get_possible_moves(cell)`: the cells returned to the caller
(empty once the game is over or when the cell is empty). -/
def State.get_possible_moves (s : State) (cell : Cell) : List Cell :=
  if s.isGameOver then []
  else
    match s.get_by_cell cell with
    | some f => (f.possible_moves_st s).1
    | none => []

/-- `State._is_there_possible_moves_by_color`: scan the squares in order and
stop at the first figure of the color with a nonempty enumeration; the
probes' appends to the shared moves list are threaded through. -/
def isThereAux (col : Int) : List Cell → State → Bool × State
  | [], s => (false, s)
  | c :: rest, s =>
    match s.get_by_cell c with
    | none => isThereAux col rest s
    | some f =>
      if f.color == col then
        match f.possible_moves_st s with
        | (cells, s1) =>
          if !cells.isEmpty then (true, s1) else isThereAux col rest s1
      else isThereAux col rest s

/-- `State._is_there_possible_moves_by_color` with its side effect on the
shared moves list. -/
def State.is_there_moves_st (s : State) (col : Int) : Bool × State :=
  isThereAux col allCells s

/-- The boolean answer of `State._is_there_possible_moves_by_color`. -/
def State.is_there_possible_moves_by_color (s : State) (color : Int) : Bool :=
  (s.is_there_moves_st color).1

/-- `State._check_on_game_over`: if the side to move has no enumerated move,
the game ends; the winner is the opposite side when that king is in check and
0 (draw) otherwise.  The enumeration probes append to the shared moves list,
so the detector pollutes the authoritative history beyond the flag and
winner fields. -/
def State.check_on_game_over (s : State) : State :=
  match s.is_there_moves_st s.whose_move with
  | (presence, s1) =>
    if !presence then
      { s1 with
        isGameOver := true
        winningSide :=
          if s1.is_king_in_check s1.whose_move then s1.whose_move * -1 else 0 }
    else s1

/-- `State.make_move`: the sole public mutator.  There is no game-over guard;
after a committed move the game-over detector runs only on original states. -/
def State.make_move (s : State) (m : Move) : Except State State :=
  match s.make_move_inner m with
  | .error e => .error e
  | .ok s1 => .ok (if s1.isOriginal then s1.check_on_game_over else s1)

/-- The text rows of `State.initial_position`, top (rank 8) first. -/
def initialRows : List (List Char) :=
  ["rhbqkbhr".toList, "pppppppp".toList, "........".toList, "........".toList,
   "........".toList, "........".toList, "PPPPPPPP".toList, "RHBQKBHR".toList]

/-- `LETTER_TO_FIGURE` on a lowered letter. -/
def figureKindOfLetter (ch : Char) : Option FigureKind :=
  if ch == 'k' then some .king
  else if ch == 'q' then some .queen
  else if ch == 'b' then some .bishop
  else if ch == 'h' then some .knight
  else if ch == 'r' then some .rook
  else if ch == 'p' then some .pawn
  else none

/-- `_get_figure_by_letter`: uppercase letters are white. -/
def figure_from_letter (pos : Cell) (ch : Char) : Option Figure :=
  (figureKindOfLetter ch.toLower).map fun k =>
    ⟨k, if ch.isUpper then 1 else -1, pos, [], 0⟩

/-- One board row (rank `ry + 1`) built by `State.board_from_text` from the
text row `7 - ry`. -/
def rowFromText (ry : Nat) (line : List Char) : List (Option Figure) :=
  (List.range 8).map fun rx =>
    match line.getD rx '.' with
    | '.' => none
    | ch => figure_from_letter ⟨(rx : Int) + 1, (ry : Int) + 1⟩ ch

/-- `State.board_from_text` applied to the fixed initial layout. -/
def initialBoard : Board :=
  (List.range 8).map fun ry => rowFromText ry (initialRows.getD (7 - ry) [])

/-- `State.__init__`: the standard starting position. -/
def State.initial : State :=
  { isGameOver := false
    winningSide := 0
    whiteKingPos := ⟨5, 1⟩
    blackKingPos := ⟨5, 8⟩
    board := initialBoard
    moves := []
    numberOfMoves := 0
    isOriginal := true }

/-- The board is an 8-by-8 grid. -/
def boardWF (b : Board) : Bool :=
  b.length == 8 && (List.range 8).all (fun i => (b.getD i []).length == 8)

/-- Every stored figure records exactly the square it occupies (maintained by
every Python board mutation; `board[ry][rx]` holds a figure whose position is
`Cell(rx + 1, ry + 1)`). -/
def posConsistent (b : Board) : Bool :=
  (List.range 8).all fun ry =>
    (List.range 8).all fun rx =>
      match (b.getD ry []).getD rx none with
      | none => true
      | some f => f.pos == ⟨(rx : Int) + 1, (ry : Int) + 1⟩

/-- The structural well-formedness every Python-reachable state satisfies. -/
def State.WF (s : State) : Bool :=
  boardWF s.board && posConsistent s.board

/-! ### Concrete positions used to settle individual claims -/

/-- An empty 8-by-8 board. -/
def emptyBoard : Board := List.replicate 8 (List.replicate 8 none)

/-- Place figures on an empty board, each at its recorded position. -/
def boardOf (fs : List Figure) : Board :=
  fs.foldl (fun b f => b.setCell f.pos (some f)) emptyBoard

/-- A figure with an empty history. -/
def fig (k : FigureKind) (c : Int) (x y : Int) : Figure :=
  ⟨k, c, ⟨x, y⟩, [], 0⟩

/-- The state reached by a move (the rejected-move arm is never used when the
move is known to succeed). -/
def afterMove (s : State) (m : Move) : State :=
  match s.make_move m with
  | .ok s1 => s1
  | .error e => e

/-- White king e1 (never moved) and a never-moved black rook d8: the castling
branch fires although the rook is an enemy piece. -/
def enemyRookState : State :=
  { isGameOver := false, winningSide := 0
    whiteKingPos := ⟨5, 1⟩, blackKingPos := ⟨1, 6⟩
    board := boardOf [fig .king 1 5 1, fig .rook (-1) 4 8, fig .king (-1) 1 6]
    moves := [], numberOfMoves := 0, isOriginal := true }

/-- White pawn e6; the black pawn d6 made a single one-square advance
(d7 to d6) on the immediately preceding ply. -/
def singleStepState : State :=
  { isGameOver := false, winningSide := 0
    whiteKingPos := ⟨5, 1⟩, blackKingPos := ⟨5, 8⟩
    board := boardOf [fig .king 1 5 1, fig .king (-1) 5 8,
      { fig .pawn 1 5 6 with
          moves := [⟨⟨5, 4⟩, ⟨5, 5⟩, 1⟩, ⟨⟨5, 5⟩, ⟨5, 6⟩, 3⟩], numberOfMoves := 2 },
      { fig .pawn (-1) 4 6 with moves := [⟨⟨4, 7⟩, ⟨4, 6⟩, 2⟩], numberOfMoves := 1 }]
    moves := [], numberOfMoves := 2, isOriginal := true }

/-- White to move.  After the quiet king move e1-e2, black has no enumerated
move (the a7 pawn is blocked on a6 and its two-square advance is never
scanned; the cornered king has only attacked neighbours), yet a7-a5 is a
legal move. -/
def stalemateTrap : State :=
  { isGameOver := false, winningSide := 0
    whiteKingPos := ⟨5, 1⟩, blackKingPos := ⟨8, 8⟩
    board := boardOf [fig .king 1 5 1, fig .rook 1 7 1, fig .knight 1 6 6,
      fig .pawn 1 1 6, fig .king (-1) 8 8, fig .pawn (-1) 1 7]
    moves := [], numberOfMoves := 0, isOriginal := true }

/-- White to move with the e-file king exposed to the black e8 rook: the
quiet pawn move a2-a3 is rejected by the post-simulation self-check, AFTER
the simulation already appended the move to the shared history. -/
def sC4 : State :=
  { isGameOver := false, winningSide := 0
    whiteKingPos := ⟨5, 1⟩, blackKingPos := ⟨1, 8⟩
    board := boardOf [fig .king 1 5 1, fig .pawn 1 1 2,
      fig .rook (-1) 5 8, fig .king (-1) 1 8]
    moves := [], numberOfMoves := 0, isOriginal := true }

/-- A white pawn on e2 with a black knight directly in front of it on e3. -/
def blockedPawnState : State :=
  { isGameOver := false, winningSide := 0
    whiteKingPos := ⟨5, 1⟩, blackKingPos := ⟨5, 8⟩
    board := boardOf [fig .king 1 5 1, fig .king (-1) 5 8,
      fig .pawn 1 5 2, fig .knight (-1) 5 3]
    moves := [], numberOfMoves := 0, isOriginal := true }

/-- A clean white kingside castling position (e1 king, h1 rook, f1/g1 empty). -/
def castleReadyState : State :=
  { isGameOver := false, winningSide := 0
    whiteKingPos := ⟨5, 1⟩, blackKingPos := ⟨5, 8⟩
    board := boardOf [fig .king 1 5 1, fig .rook 1 8 1, fig .king (-1) 5 8]
    moves := [], numberOfMoves := 0, isOriginal := true }

/-- A position with a genuine immediately preceding two-square advance:
black just played d7-d5 past the white pawn on e5. -/
def doubleStepState : State :=
  { isGameOver := false, winningSide := 0
    whiteKingPos := ⟨5, 1⟩, blackKingPos := ⟨5, 8⟩
    board := boardOf [fig .king 1 5 1, fig .king (-1) 5 8,
      { fig .pawn 1 5 5 with
          moves := [⟨⟨5, 4⟩, ⟨5, 5⟩, 1⟩], numberOfMoves := 1 },
      { fig .pawn (-1) 4 5 with moves := [⟨⟨4, 7⟩, ⟨4, 5⟩, 2⟩], numberOfMoves := 1 }]
    moves := [], numberOfMoves := 2, isOriginal := true }

/-! ### Elementary list and board lemmas -/

theorem getD_set (l : List α) (i j : Nat) (v d : α) :
    (l.set i v).getD j d = if i = j ∧ i < l.length then v else l.getD j d := by
  induction l generalizing i j with
  | nil => simp [List.set]
  | cons a l ih =>
    cases i with
    | zero =>
      cases j with
      | zero => simp
      | succ j => simp [List.getD]
    | succ i =>
      cases j with
      | zero => simp [List.getD]
      | succ j =>
        simp only [List.set, List.getD_cons_succ, List.length_cons, ih]
        split <;> split <;> first | rfl | omega

/-- Row and column index of a cell into the Python board lists. -/
def cellIy (c : Cell) : Nat := (c.y - 1).toNat

/-- Column index of a cell. -/
def cellIx (c : Cell) : Nat := (c.x - 1).toNat

theorem get_by_cell_def (s : State) (c : Cell) :
    s.get_by_cell c = (s.board.getD (cellIy c) []).getD (cellIx c) none := rfl

theorem valid_indexes (c : Cell) (h : c.valid = true) :
    cellIx c < 8 ∧ cellIy c < 8 := by
  simp only [Cell.valid, Bool.and_eq_true, decide_eq_true_eq] at h
  unfold cellIx cellIy
  omega

theorem valid_index_ne (c c2 : Cell) (hc : c.valid = true) (hc2 : c2.valid = true)
    (h : c ≠ c2) : cellIy c ≠ cellIy c2 ∨ cellIx c ≠ cellIx c2 := by
  simp only [Cell.valid, Bool.and_eq_true, decide_eq_true_eq] at hc hc2
  unfold cellIx cellIy
  by_contra hcon
  push_neg at hcon
  exact h (by
    obtain ⟨h1, h2⟩ := hcon
    cases c
    cases c2
    simp_all
    omega)

theorem boardWF_length {b : Board} (h : boardWF b = true) : b.length = 8 := by
  simp only [boardWF, Bool.and_eq_true, beq_iff_eq] at h
  exact h.1

theorem boardWF_row {b : Board} (h : boardWF b = true) (i : Nat) (hi : i < 8) :
    (b.getD i []).length = 8 := by
  simp only [boardWF, Bool.and_eq_true, List.all_eq_true, beq_iff_eq] at h
  exact h.2 i (List.mem_range.mpr hi)

theorem get_setCell (b : Board) (c c2 : Cell) (v : Option Figure) :
    ((b.setCell c v).getD (cellIy c2) []).getD (cellIx c2) none =
      if cellIy c = cellIy c2 ∧ cellIy c < b.length then
        ((b.getD (cellIy c) []).set (cellIx c) v).getD (cellIx c2) none
      else (b.getD (cellIy c2) []).getD (cellIx c2) none := by
  unfold Board.setCell
  rw [show (c.y - 1).toNat = cellIy c from rfl, show (c.x - 1).toNat = cellIx c from rfl,
    getD_set]
  split <;> rfl

/-- Reading back the square just written (valid cell, well-formed board). -/
theorem get_set_self (s : State) (c : Cell) (v : Option Figure)
    (hb : boardWF s.board = true) (hc : c.valid = true) :
    (s.set_by_cell c v).get_by_cell c = v := by
  obtain ⟨hx, hy⟩ := valid_indexes c hc
  show ((s.board.setCell c v).getD (cellIy c) []).getD (cellIx c) none = v
  rw [get_setCell]
  rw [if_pos ⟨rfl, by rw [boardWF_length hb]; exact hy⟩, getD_set,
    if_pos ⟨rfl, by rw [boardWF_row hb _ hy]; exact hx⟩]

/-- Reading another square after a write (both cells valid, distinct). -/
theorem get_set_ne (s : State) (c c2 : Cell) (v : Option Figure)
    (hc : c.valid = true) (hc2 : c2.valid = true) (hne : c ≠ c2) :
    (s.set_by_cell c v).get_by_cell c2 = s.get_by_cell c2 := by
  show ((s.board.setCell c v).getD (cellIy c2) []).getD (cellIx c2) none = _
  rw [get_setCell]
  rcases valid_index_ne c c2 hc hc2 hne with h | h
  · rw [if_neg (by intro hcon; exact h hcon.1)]; rfl
  · split
    · next hcon =>
      rw [hcon.1, getD_set, if_neg (by intro hcon2; exact h hcon2.1)]; rfl
    · rfl

theorem boardWF_setCell {b : Board} (h : boardWF b = true) (c : Cell) (v : Option Figure) :
    boardWF (b.setCell c v) = true := by
  simp only [boardWF, Bool.and_eq_true, List.all_eq_true, beq_iff_eq] at h ⊢
  refine ⟨by simpa [Board.setCell] using h.1, fun i hi => ?_⟩
  have hrow := h.2 i hi
  unfold Board.setCell
  rw [getD_set]
  split
  · next hcon => rw [List.length_set, hcon.1]; exact hrow
  · exact hrow

/-! ### Field-preservation lemmas for the state transformers -/

@[simp] theorem set_moves (s : State) (c v) : (s.set_by_cell c v).moves = s.moves := rfl

@[simp] theorem set_count (s : State) (c v) :
    (s.set_by_cell c v).numberOfMoves = s.numberOfMoves := rfl

@[simp] theorem set_over (s : State) (c v) : (s.set_by_cell c v).isGameOver = s.isGameOver := rfl

@[simp] theorem set_orig (s : State) (c v) : (s.set_by_cell c v).isOriginal = s.isOriginal := rfl

@[simp] theorem set_win (s : State) (c v) : (s.set_by_cell c v).winningSide = s.winningSide := rfl

@[simp] theorem set_wk (s : State) (c v) : (s.set_by_cell c v).whiteKingPos = s.whiteKingPos := rfl

@[simp] theorem set_bk (s : State) (c v) : (s.set_by_cell c v).blackKingPos = s.blackKingPos := rfl

@[simp] theorem chk_moves (s : State) (c col) :
    (s.change_king_position_by_color c col).moves = s.moves := by
  unfold State.change_king_position_by_color; split <;> rfl

@[simp] theorem chk_count (s : State) (c col) :
    (s.change_king_position_by_color c col).numberOfMoves = s.numberOfMoves := by
  unfold State.change_king_position_by_color; split <;> rfl

@[simp] theorem chk_over (s : State) (c col) :
    (s.change_king_position_by_color c col).isGameOver = s.isGameOver := by
  unfold State.change_king_position_by_color; split <;> rfl

@[simp] theorem chk_orig (s : State) (c col) :
    (s.change_king_position_by_color c col).isOriginal = s.isOriginal := by
  unfold State.change_king_position_by_color; split <;> rfl

@[simp] theorem chk_win (s : State) (c col) :
    (s.change_king_position_by_color c col).winningSide = s.winningSide := by
  unfold State.change_king_position_by_color; split <;> rfl

@[simp] theorem chk_board (s : State) (c col) :
    (s.change_king_position_by_color c col).board = s.board := by
  unfold State.change_king_position_by_color; split <;> rfl

theorem chk_get (s : State) (c col c2) :
    (s.change_king_position_by_color c col).get_by_cell c2 = s.get_by_cell c2 := by
  unfold State.change_king_position_by_color; split <;> rfl

theorem chk_self (s : State) (c : Cell) (col : Int) :
    (s.change_king_position_by_color c col).get_king_position_by_color col = c := by
  unfold State.change_king_position_by_color State.get_king_position_by_color
  split <;> simp_all

@[simp] theorem tq_moves (s : State) (c) : (transform_to_queen s c).moves = s.moves := by
  unfold transform_to_queen; split <;> rfl

@[simp] theorem tq_count (s : State) (c) :
    (transform_to_queen s c).numberOfMoves = s.numberOfMoves := by
  unfold transform_to_queen; split <;> rfl

@[simp] theorem tq_over (s : State) (c) :
    (transform_to_queen s c).isGameOver = s.isGameOver := by
  unfold transform_to_queen; split <;> rfl

@[simp] theorem tq_orig (s : State) (c) :
    (transform_to_queen s c).isOriginal = s.isOriginal := by
  unfold transform_to_queen; split <;> rfl

@[simp] theorem um_count (f : Figure) (s : State) (c) :
    (f.unchecked_move s c).numberOfMoves = s.numberOfMoves + 1 := rfl

@[simp] theorem um_moves (f : Figure) (s : State) (c) :
    (f.unchecked_move s c).moves = s.moves ++ [⟨f.pos, c, s.numberOfMoves + 1⟩] := rfl

@[simp] theorem um_over (f : Figure) (s : State) (c) :
    (f.unchecked_move s c).isGameOver = s.isGameOver := rfl

@[simp] theorem um_orig (f : Figure) (s : State) (c) :
    (f.unchecked_move s c).isOriginal = s.isOriginal := rfl

@[simp] theorem um_board (f : Figure) (s : State) (c) :
    (f.unchecked_move s c).board =
      (s.board.setCell c (some (f.moved s c))).setCell f.pos none := rfl

@[simp] theorem copy_board (s : State) : s.get_copy.board = s.board := rfl

@[simp] theorem copy_count (s : State) : s.get_copy.numberOfMoves = s.numberOfMoves := rfl

@[simp] theorem copy_get (s : State) (c) : s.get_copy.get_by_cell c = s.get_by_cell c := rfl

@[simp] theorem moved_copy (f : Figure) (s : State) (c) :
    f.moved s.get_copy c = f.moved s c := rfl

@[simp] theorem moved_sync (f : Figure) (s sc : State) (c : Cell) :
    f.moved (syncMoves s sc) c = f.moved s c := rfl

@[simp] theorem sync_board (s sc : State) : (syncMoves s sc).board = s.board := rfl

@[simp] theorem sync_count (s sc : State) :
    (syncMoves s sc).numberOfMoves = s.numberOfMoves := rfl

@[simp] theorem sync_over (s sc : State) : (syncMoves s sc).isGameOver = s.isGameOver := rfl

@[simp] theorem sync_orig (s sc : State) : (syncMoves s sc).isOriginal = s.isOriginal := rfl

@[simp] theorem sync_win (s sc : State) : (syncMoves s sc).winningSide = s.winningSide := rfl

@[simp] theorem sync_wk (s sc : State) : (syncMoves s sc).whiteKingPos = s.whiteKingPos := rfl

@[simp] theorem sync_bk (s sc : State) : (syncMoves s sc).blackKingPos = s.blackKingPos := rfl

@[simp] theorem sync_moves (s sc : State) : (syncMoves s sc).moves = sc.moves := rfl

@[simp] theorem sync_get (s sc : State) (c : Cell) :
    (syncMoves s sc).get_by_cell c = s.get_by_cell c := rfl

/-- The authoritative state after some entries were appended to the shared
history; every other field is untouched. -/
def State.extendMoves (s : State) (l : List EnumeratedMove) : State :=
  { s with moves := s.moves ++ l }

theorem WF_board {s : State} (h : s.WF = true) : boardWF s.board = true := by
  simp only [State.WF, Bool.and_eq_true] at h
  exact h.1

/-- On a well-formed state, an occupant of any square sits at a valid
position, records exactly that square, and is found again there. -/
theorem WF_get_self (s : State) (c : Cell) (f : Figure) (hWF : s.WF = true)
    (h : s.get_by_cell c = some f) :
    f.pos.valid = true ∧ s.get_by_cell f.pos = some f := by
  simp only [State.WF, Bool.and_eq_true] at hWF
  obtain ⟨hb, hp⟩ := hWF
  rw [get_by_cell_def] at h
  have hiy : cellIy c < 8 := by
    by_contra hcon
    have h0 : s.board.getD (cellIy c) [] = [] :=
      List.getD_eq_default _ _ (by rw [boardWF_length hb]; omega)
    rw [h0] at h
    simp [List.getD] at h
  have hix : cellIx c < 8 := by
    by_contra hcon
    have h0 : (s.board.getD (cellIy c) []).getD (cellIx c) none = none :=
      List.getD_eq_default _ _ (by rw [boardWF_row hb _ hiy]; omega)
    rw [h0] at h
    exact Option.noConfusion h
  simp only [posConsistent, List.all_eq_true] at hp
  have hpc := hp (cellIy c) (List.mem_range.mpr hiy) (cellIx c) (List.mem_range.mpr hix)
  rw [h] at hpc
  simp only [beq_iff_eq] at hpc
  have hv : f.pos.valid = true := by
    rw [hpc]
    simp only [Cell.valid, Bool.and_eq_true, decide_eq_true_eq]
    omega
  refine ⟨hv, ?_⟩
  rw [get_by_cell_def]
  have hyy : cellIy f.pos = cellIy c := by rw [hpc]; unfold cellIy; simp
  have hxx : cellIx f.pos = cellIx c := by rw [hpc]; unfold cellIx; simp
  rw [hyy, hxx, h]

@[simp] theorem set_board (s : State) (c v) :
    (s.set_by_cell c v).board = s.board.setCell c v := rfl

/-- `get_by_cell` only reads the board. -/
theorem get_congr {st st2 : State} (c : Cell) (hb : st.board = st2.board) :
    st.get_by_cell c = st2.get_by_cell c := by
  rw [get_by_cell_def, get_by_cell_def, hb]

/-- `rookShift` inspects only the board, so two states with equal boards
cannot disagree on whether it raises. -/
theorem rookShift_error_congr {st st2 : State} {a b : Cell} {e sc : State}
    (hb : st.board = st2.board) (h1 : rookShift st a b = .ok sc)
    (h2 : rookShift st2 a b = .error e) : False := by
  unfold rookShift at h1 h2
  have hg : st2.get_by_cell a = st.get_by_cell a := (get_congr a hb).symm
  have hb2 : (st2.set_by_cell b (st2.get_by_cell a)).board =
      (st.set_by_cell b (st.get_by_cell a)).board := by
    rw [set_board, set_board, hb, hg]
  have hs : (st2.set_by_cell b (st2.get_by_cell a)).get_by_cell b =
      (st.set_by_cell b (st.get_by_cell a)).get_by_cell b := get_congr b hb2
  rw [hs] at h2
  rcases hsc : (st.set_by_cell b (st.get_by_cell a)).get_by_cell b with _ | g <;>
    rw [hsc] at h1 h2 <;> simp at h1 h2

/-- Unfolding a successful `_make_move_on_copied` when the moving figure
does occupy its recorded square. -/
theorem move_on_copy_eq {s : State} {f : Figure} {c : Cell} {sc : State}
    (hf : s.get_by_cell f.pos = some f) (h : f.move_on_copy s c = some sc) :
    sc = f.unchecked_move s.get_copy c := by
  unfold Figure.move_on_copy State.unchecked_move at h
  simp only [copy_get] at h
  rw [hf] at h
  exact (Option.some.injEq _ _ ▸ h).symm

/-- Whenever `_make_move_on_copied` returns a clone, the shared moves list
has gained exactly one entry carrying the next ply number. -/
theorem move_on_copy_shape {f : Figure} {s : State} {c : Cell} {sc : State}
    (h : f.move_on_copy s c = some sc) :
    ∃ em : EnumeratedMove, em.moveNumber = s.numberOfMoves + 1 ∧
      sc.moves = s.moves ++ [em] := by
  unfold Figure.move_on_copy State.unchecked_move at h
  split at h
  · exact Option.noConfusion h
  · next g hg =>
    injection h with h2
    subst h2
    exact ⟨⟨g.pos, c, s.numberOfMoves + 1⟩, rfl, rfl⟩

/-- A rejection reached after the simulation leaves the input state with
exactly the simulated append in the shared history. -/
theorem sync_err {s : State} {f : Figure} {c : Cell} {sc0 : State}
    (hmoc : f.move_on_copy s c = some sc0) :
    syncMoves s sc0 = s ∨ ∃ em, syncMoves s sc0 = s.extendMoves [em] := by
  obtain ⟨em, -, hm⟩ := move_on_copy_shape hmoc
  refine Or.inr ⟨em, ?_⟩
  unfold syncMoves State.extendMoves
  rw [hm]

theorem sync_err_moves {s : State} {f : Figure} {c : Cell} {sc0 : State}
    (hmoc : f.move_on_copy s c = some sc0) :
    ∃ l, (syncMoves s sc0).moves = s.moves ++ l := by
  obtain ⟨em, -, hm⟩ := move_on_copy_shape hmoc
  exact ⟨[em], hm⟩

theorem rookShift_error_moves {st : State} {a b : Cell} {e : State}
    (h : rookShift st a b = .error e) : e.moves = st.moves := by
  unfold rookShift at h
  split at h
  · injection h with h2
    subst h2
    rfl
  · exact Except.noConfusion h

theorem slideCommit_error {s : State} {f : Figure} {c : Cell} {g : Bool} {e : State}
    (h : slideCommit s f c g = .error e) :
    e = s ∨ ∃ em, e = s.extendMoves [em] := by
  unfold slideCommit at h
  repeat' split at h
  all_goals first
    | exact Except.noConfusion h
    | (injection h with h2; exact Or.inl h2.symm)
    | (injection h with h2; subst h2; apply sync_err; assumption)

theorem pawn_error {s : State} {f : Figure} {c : Cell} {e : State}
    (h : Pawn.make_move s f c = .error e) :
    e = s ∨ ∃ em, e = s.extendMoves [em] := by
  unfold Pawn.make_move at h
  repeat' split at h
  all_goals first
    | exact Except.noConfusion h
    | (injection h with h2; exact Or.inl h2.symm)
    | (injection h with h2; subst h2; apply sync_err; assumption)

theorem king_normal_error {s : State} {f : Figure} {c : Cell} {e : State}
    (h : King.normal s f c = .error e) :
    e = s ∨ ∃ em, e = s.extendMoves [em] := by
  unfold King.normal at h
  repeat' split at h
  all_goals first
    | exact Except.noConfusion h
    | (injection h with h2; exact Or.inl h2.symm)
    | (injection h with h2; subst h2; apply sync_err; assumption)

theorem castle_error {s : State} {f r : Figure} {cell : Cell} {e : State}
    (hf : s.get_by_cell f.pos = some f)
    (h : King.castle s f r cell = .error e) :
    e = s ∨ ∃ em, e = s.extendMoves [em] := by
  unfold King.castle at h
  repeat' split at h
  all_goals first
    | exact Except.noConfusion h
    | (injection h with h2; exact Or.inl h2.symm)
    | (injection h with h2; subst h2; apply sync_err; assumption)
    | skip
  -- remaining case: the committed rook relocation raised although the
  -- simulated one succeeded; impossible since clone and original agree
  -- on the board after the king step
  next xo sc0 hmoc xc sc hclone hkc xe e0 hcommit =>
    injection h with h2
    subst h2
    rw [move_on_copy_eq hf hmoc] at hclone
    exact (rookShift_error_congr (by simp) hclone hcommit).elim

theorem king_error {s : State} {f : Figure} {cell : Cell} {e : State}
    (hf : s.get_by_cell f.pos = some f)
    (h : King.make_move s f cell = .error e) :
    e = s ∨ ∃ em, e = s.extendMoves [em] := by
  unfold King.make_move at h
  repeat' split at h
  all_goals first
    | exact castle_error hf h
    | exact king_normal_error h

theorem figure_error {s : State} {f : Figure} {cell : Cell} {e : State}
    (hf : s.get_by_cell f.pos = some f)
    (h : f.make_move s cell = .error e) :
    e = s ∨ ∃ em, e = s.extendMoves [em] := by
  unfold Figure.make_move at h
  repeat' split at h
  all_goals first
    | exact king_error hf h
    | exact slideCommit_error h
    | exact pawn_error h

theorem inner_error {s : State} {m : Move} {e : State} (hWF : s.WF = true)
    (h : s.make_move_inner m = .error e) :
    e = s ∨ ∃ em, e = s.extendMoves [em] := by
  unfold State.make_move_inner at h
  split at h
  · injection h with h2
    exact Or.inl h2.symm
  · next f heq =>
    split at h
    · injection h with h2
      exact Or.inl h2.symm
    · exact figure_error (WF_get_self s m.cellFrom f hWF heq).2 h

/-- Every rejection value, well-formed or not, carries a history that merely
extends the input state's (needed for the enumeration probes, which run on
arbitrary intermediate states). -/
theorem err_mv_of_error {s e : State} (h : e = s ∨ ∃ em, e = s.extendMoves [em]) :
    ∃ l, e.moves = s.moves ++ l := by
  rcases h with he | ⟨em, he⟩
  · exact ⟨[], by rw [he]; simp⟩
  · exact ⟨[em], by rw [he]; rfl⟩

theorem castle_err_mv {s : State} {f r : Figure} {cell : Cell} {e : State}
    (h : King.castle s f r cell = .error e) : ∃ l, e.moves = s.moves ++ l := by
  unfold King.castle at h
  repeat' split at h
  all_goals first
    | exact Except.noConfusion h
    | (injection h with h2; subst h2; first
        | exact ⟨[], (List.append_nil s.moves).symm⟩
        | (apply sync_err_moves; assumption))
    | skip
  next xo sc0 hmoc xc sc hclone hkc xe e0 hcommit =>
    injection h with h2
    subst h2
    obtain ⟨em, -, hm⟩ := move_on_copy_shape hmoc
    refine ⟨[em, ⟨f.pos, castleKingNew f cell, s.numberOfMoves + 1⟩], ?_⟩
    rw [rookShift_error_moves hcommit, chk_moves, um_moves, sync_moves, sync_count, hm,
      List.append_assoc]
    rfl

theorem king_err_mv {s : State} {f : Figure} {cell : Cell} {e : State}
    (h : King.make_move s f cell = .error e) : ∃ l, e.moves = s.moves ++ l := by
  unfold King.make_move at h
  repeat' split at h
  all_goals first
    | exact castle_err_mv h
    | exact err_mv_of_error (king_normal_error h)

theorem inner_err_mv {s : State} {m : Move} {e : State}
    (h : s.make_move_inner m = .error e) : ∃ l, e.moves = s.moves ++ l := by
  unfold State.make_move_inner at h
  split at h
  · injection h with h2
    exact ⟨[], by rw [← h2]; simp⟩
  · split at h
    · injection h with h2
      exact ⟨[], by rw [← h2]; simp⟩
    · unfold Figure.make_move at h
      repeat' split at h
      all_goals first
        | exact king_err_mv h
        | exact err_mv_of_error (slideCommit_error h)
        | exact err_mv_of_error (pawn_error h)

theorem rookShift_ok_fields {st : State} {a b : Cell} {s2 : State}
    (h : rookShift st a b = .ok s2) :
    s2.moves = st.moves ∧ s2.numberOfMoves = st.numberOfMoves ∧
    s2.isGameOver = st.isGameOver ∧ s2.isOriginal = st.isOriginal := by
  unfold rookShift at h
  split at h
  · exact Except.noConfusion h
  · cases h; exact ⟨rfl, rfl, rfl, rfl⟩

theorem two_appends {s : State} {f : Figure} {c : Cell} {sc0 : State}
    (hmoc : f.move_on_copy s c = some sc0) (p tgt : Cell) :
    ∃ e1 e2 : EnumeratedMove, e1.moveNumber = s.numberOfMoves + 1 ∧
      e2.moveNumber = s.numberOfMoves + 1 ∧
      sc0.moves ++ [⟨p, tgt, s.numberOfMoves + 1⟩] = s.moves ++ [e1, e2] := by
  obtain ⟨em, h1, h2⟩ := move_on_copy_shape hmoc
  exact ⟨em, ⟨p, tgt, s.numberOfMoves + 1⟩, h1, rfl, by rw [h2, List.append_assoc]; rfl⟩

/-- Every accepted move (before the game-over re-evaluation) increments the
ply counter by one and appends exactly two enumerated moves to the global
history - once by the simulation, through the shared list, and once by the
commit, both entries carrying the next ply number; the game-over flag and
originality are untouched. -/
theorem inner_ok {s : State} {m : Move} {s1 : State} (h : s.make_move_inner m = .ok s1) :
    s1.numberOfMoves = s.numberOfMoves + 1 ∧
    (∃ e1 e2 : EnumeratedMove, e1.moveNumber = s.numberOfMoves + 1 ∧
      e2.moveNumber = s.numberOfMoves + 1 ∧ s1.moves = s.moves ++ [e1, e2]) ∧
    s1.isGameOver = s.isGameOver ∧ s1.isOriginal = s.isOriginal := by
  unfold State.make_move_inner Figure.make_move King.make_move King.normal King.castle
    Queen.make_move Bishop.make_move Knight.make_move Rook.make_move Pawn.make_move
    slideCommit at h
  repeat' split at h
  all_goals try exact Except.noConfusion h
  all_goals try (injection h with h2; subst h2)
  all_goals
    try (refine ⟨by simp, ?_, by simp, by simp⟩;
         simp only [chk_moves, um_moves, set_moves, tq_moves, sync_moves, sync_count];
         apply two_appends <;> assumption)
  all_goals
    next hcommit =>
      obtain ⟨h1, h2, h3, h4⟩ := rookShift_ok_fields hcommit
      refine ⟨by simp [h2], ?_, by simp [h3], by simp [h4]⟩
      rw [h1]
      simp only [chk_moves, um_moves, sync_moves, sync_count]
      apply two_appends <;> assumption

/-- The ply parity flip: one more recorded move flips whose_move. -/
theorem whose_move_flip (s s1 : State) (h : s1.numberOfMoves = s.numberOfMoves + 1) :
    s1.whose_move = -s.whose_move := by
  unfold State.whose_move
  rw [h]
  rcases Nat.mod_two_eq_zero_or_one s.numberOfMoves with h0 | h0 <;>
    · have h1 : (s.numberOfMoves + 1) % 2 = 1 - s.numberOfMoves % 2 := by omega
      rw [h1, h0]
      simp

/-! ### Attack tests depend only on the board, and the probe pollution -/

theorem rayReaches_congr {a b : State} (hb : a.board = b.board) (t : Cell) :
    ∀ (n : Nat) (x y dx dy : Int), rayReaches a t x y dx dy n = rayReaches b t x y dx dy n := by
  intro n
  induction n with
  | zero => intro x y dx dy; rfl
  | succ n ih =>
    intro x y dx dy
    unfold rayReaches
    simp only [State.get_by_cell, hb, ih]

theorem figure_attack_congr {a b : State} (hb : a.board = b.board) (f : Figure) (cell : Cell) :
    f.is_cell_under_attack a cell = f.is_cell_under_attack b cell := by
  unfold Figure.is_cell_under_attack
  cases hk : f.kind <;>
    simp only [queenAttack, bishopAttack, rookAttack, diagonalReaches, verticalClear,
      horizontalClear, State.get_by_cell, hb, rayReaches_congr hb]

theorem under_attack_congr {a b : State} (hb : a.board = b.board) (cell : Cell) (col : Int) :
    a.is_cell_under_attack cell col = b.is_cell_under_attack cell col := by
  unfold State.is_cell_under_attack
  congr 1
  funext c
  rw [get_congr c hb]
  rcases b.get_by_cell c with _ | g
  · rfl
  · show (g.color == col && g.is_cell_under_attack a cell) =
      (g.color == col && g.is_cell_under_attack b cell)
    rw [figure_attack_congr hb]

theorem kcheck_congr {a b : State} (hb : a.board = b.board)
    (hwk : a.whiteKingPos = b.whiteKingPos) (hbk : a.blackKingPos = b.blackKingPos)
    (col : Int) : a.is_king_in_check col = b.is_king_in_check col := by
  unfold State.is_king_in_check State.get_king_position_by_color
  rw [hwk, hbk]
  exact under_attack_congr hb _ _

/-- The enumeration-probe pollution relation: `x` is `s` with the shared
history extended, every other field equal. -/
def pollutes (s x : State) : Prop :=
  x.isGameOver = s.isGameOver ∧ x.winningSide = s.winningSide ∧
  x.whiteKingPos = s.whiteKingPos ∧ x.blackKingPos = s.blackKingPos ∧
  x.board = s.board ∧ x.numberOfMoves = s.numberOfMoves ∧ x.isOriginal = s.isOriginal ∧
  ∃ l, x.moves = s.moves ++ l

theorem pollutes_refl (s : State) : pollutes s s :=
  ⟨rfl, rfl, rfl, rfl, rfl, rfl, rfl, [], by simp⟩

theorem pollutes_trans {s a b : State} (h1 : pollutes s a) (h2 : pollutes a b) :
    pollutes s b := by
  obtain ⟨a1, a2, a3, a4, a5, a6, a7, l1, hl1⟩ := h1
  obtain ⟨b1, b2, b3, b4, b5, b6, b7, l2, hl2⟩ := h2
  exact ⟨b1.trans a1, b2.trans a2, b3.trans a3, b4.trans a4, b5.trans a5, b6.trans a6,
    b7.trans a7, l1 ++ l2, by rw [hl2, hl1, List.append_assoc]⟩

theorem runProbe_pollutes (s : State) (src c : Cell) : pollutes s (runProbe s src c).2 := by
  unfold runProbe
  rcases hp : s.get_copy.make_move_inner ⟨src, c⟩ with e | s1
  · refine ⟨rfl, rfl, rfl, rfl, rfl, rfl, rfl, ?_⟩
    have hx := inner_err_mv hp
    exact hx
  · refine ⟨rfl, rfl, rfl, rfl, rfl, rfl, rfl, ?_⟩
    obtain ⟨-, ⟨e1, e2, -, -, hm⟩, -, -⟩ := inner_ok hp
    refine ⟨[e1, e2], ?_⟩
    exact hm

theorem probeCells_pollutes (src : Cell) (cs : List Cell) (s : State) :
    pollutes s (probeCells src cs s).2 := by
  induction cs generalizing s with
  | nil => exact pollutes_refl s
  | cons c rest ih =>
    have hstep : (probeCells src (c :: rest) s).2 =
        (probeCells src rest (runProbe s src c).2).2 := by
      simp only [probeCells]
      rcases runProbe s src c with ⟨ok, s1⟩
      rfl
    rw [hstep]
    exact pollutes_trans (runProbe_pollutes s src c) (ih (runProbe s src c).2)

theorem possible_moves_st_pollutes (f : Figure) (s : State) :
    pollutes s (f.possible_moves_st s).2 := by
  unfold Figure.possible_moves_st Figure.get_possible_moves_st Knight.get_possible_moves_st
    Pawn.get_possible_moves_st
  split <;> exact probeCells_pollutes _ _ s

theorem isThereAux_pollutes (col : Int) (cs : List Cell) (s : State) :
    pollutes s (isThereAux col cs s).2 := by
  induction cs generalizing s with
  | nil => exact pollutes_refl s
  | cons c rest ih =>
    simp only [isThereAux]
    split
    · exact ih s
    · split
      · split
        · exact possible_moves_st_pollutes _ s
        · exact pollutes_trans (possible_moves_st_pollutes _ s) (ih _)
      · exact ih s

/-- What the detector preserves: board, counters, caches and originality;
the shared history only grows (by the enumeration probes). -/
theorem cgo_shape (s : State) :
    s.check_on_game_over.board = s.board ∧
    s.check_on_game_over.numberOfMoves = s.numberOfMoves ∧
    s.check_on_game_over.whiteKingPos = s.whiteKingPos ∧
    s.check_on_game_over.blackKingPos = s.blackKingPos ∧
    s.check_on_game_over.isOriginal = s.isOriginal ∧
    ∃ l, s.check_on_game_over.moves = s.moves ++ l := by
  unfold State.check_on_game_over
  split
  next p s1 hh =>
    have h0 : pollutes s s1 := by
      have h1 := isThereAux_pollutes s.whose_move allCells s
      rw [show isThereAux s.whose_move allCells s = s.is_there_moves_st s.whose_move from rfl,
        hh] at h1
      exact h1
    obtain ⟨b1, b2, b3, b4, b5, b6, b7, l, hl⟩ := h0
    split
    · exact ⟨b5, b6, b3, b4, b7, l, hl⟩
    · exact ⟨b5, b6, b3, b4, b7, l, hl⟩

theorem cgo_board (s : State) : s.check_on_game_over.board = s.board := (cgo_shape s).1

theorem cgo_count (s : State) :
    s.check_on_game_over.numberOfMoves = s.numberOfMoves := (cgo_shape s).2.1

theorem cgo_get (s : State) (c : Cell) :
    s.check_on_game_over.get_by_cell c = s.get_by_cell c :=
  get_congr c (cgo_shape s).1

theorem cgo_kings (s : State) (col : Int) :
    s.check_on_game_over.get_king_position_by_color col =
      s.get_king_position_by_color col := by
  unfold State.get_king_position_by_color
  rw [(cgo_shape s).2.2.1, (cgo_shape s).2.2.2.1]

theorem cgo_over_monotone (s : State) (h : s.isGameOver = true) :
    s.check_on_game_over.isGameOver = true := by
  unfold State.check_on_game_over
  split
  next p s1 hh =>
    have h0 : pollutes s s1 := by
      have h1 := isThereAux_pollutes s.whose_move allCells s
      rw [show isThereAux s.whose_move allCells s = s.is_there_moves_st s.whose_move from rfl,
        hh] at h1
      exact h1
    split
    · rfl
    · exact h0.1.trans h

/-- The detector's outcome, keyed to the enumerator's presence answer. -/
theorem cgo_outcome (s : State) :
    (s.is_there_possible_moves_by_color s.whose_move = false →
      s.check_on_game_over.isGameOver = true ∧
      s.check_on_game_over.winningSide =
        (if s.is_king_in_check s.whose_move then s.whose_move * -1 else 0)) ∧
    (s.is_there_possible_moves_by_color s.whose_move = true →
      s.check_on_game_over.isGameOver = s.isGameOver ∧
      s.check_on_game_over.winningSide = s.winningSide) := by
  unfold State.check_on_game_over
  split
  next p s1 hh =>
    have h0 : pollutes s s1 := by
      have h1 := isThereAux_pollutes s.whose_move allCells s
      rw [show isThereAux s.whose_move allCells s = s.is_there_moves_st s.whose_move from rfl,
        hh] at h1
      exact h1
    obtain ⟨b1, b2, b3, b4, b5, b6, -, -, -⟩ := h0
    have hps : s.is_there_possible_moves_by_color s.whose_move = p := by
      unfold State.is_there_possible_moves_by_color
      rw [hh]
    constructor
    · intro hp
      have hp2 : p = false := by rw [← hps]; exact hp
      subst hp2
      refine ⟨rfl, ?_⟩
      show (if s1.is_king_in_check s1.whose_move then s1.whose_move * -1 else 0) = _
      have hwm : s1.whose_move = s.whose_move := by
        unfold State.whose_move
        rw [b6]
      rw [hwm, kcheck_congr b5 b3 b4]
    · intro hp
      have hp2 : p = true := by rw [← hps]; exact hp
      subst hp2
      exact ⟨b1, b2⟩

theorem valid_bounds {c : Cell} (h : c.valid = true) :
    1 ≤ c.x ∧ c.x ≤ 8 ∧ 1 ≤ c.y ∧ c.y ≤ 8 := by
  simp only [Cell.valid, Bool.and_eq_true, decide_eq_true_eq] at h
  omega

theorem valid_of_bounds {c : Cell} (h1 : 1 ≤ c.x) (h2 : c.x ≤ 8) (h3 : 1 ≤ c.y)
    (h4 : c.y ≤ 8) : c.valid = true := by
  simp only [Cell.valid, Bool.and_eq_true, decide_eq_true_eq]
  omega

/-- On a well-formed state the occupant of a valid square records exactly
that square. -/
theorem WF_get_pos_eq (s : State) (c : Cell) (f : Figure) (hWF : s.WF = true)
    (h : s.get_by_cell c = some f) (hc : c.valid = true) : f.pos = c := by
  simp only [State.WF, Bool.and_eq_true] at hWF
  obtain ⟨hb, hp⟩ := hWF
  rw [get_by_cell_def] at h
  obtain ⟨hx8, hy8⟩ := valid_indexes c hc
  simp only [posConsistent, List.all_eq_true] at hp
  have hpc := hp (cellIy c) (List.mem_range.mpr hy8) (cellIx c) (List.mem_range.mpr hx8)
  rw [h] at hpc
  simp only [beq_iff_eq] at hpc
  obtain ⟨b1, b2, b3, b4⟩ := valid_bounds hc
  rw [hpc]
  have e1 : ((cellIx c : Int) + 1) = c.x := by unfold cellIx; omega
  have e2 : ((cellIy c : Int) + 1) = c.y := by unfold cellIy; omega
  have hc2 : c = (⟨c.x, c.y⟩ : Cell) := rfl
  rw [hc2]
  simp only [Cell.mk.injEq]
  exact ⟨e1, e2⟩

theorem sign_of_ge (d : Int) (h : 3 ≤ d) : sign d = 1 := by
  unfold sign
  split
  · rfl
  · omega

theorem sign_of_le (d : Int) (h : d ≤ -3) : sign d = -1 := by
  unfold sign
  split
  · omega
  · split
    · rfl
    · omega

/-- Unfolding a `_make_move_on_copied` that is known to find its figure. -/
theorem move_on_copy_some (s : State) (f : Figure) (c : Cell)
    (hf : s.get_by_cell f.pos = some f) :
    f.move_on_copy s c = some (f.unchecked_move s.get_copy c) := by
  unfold Figure.move_on_copy State.unchecked_move
  simp only [copy_get]
  rw [hf]

/-- The game-over re-evaluation never changes whether a move was accepted. -/
theorem moveOk_error (e : State) : moveOk (Except.error e) = false := rfl

theorem moveOk_ok (x : State) : moveOk (Except.ok x) = true := rfl

theorem moveOk_ite_error (C : Bool) (s x : State) :
    moveOk (if C = true then Except.error s else Except.ok x) = !C := by
  cases C <;> simp [moveOk]

theorem get_set_self2 (s : State) (c c2 : Cell) (v : Option Figure)
    (hb : boardWF s.board = true) (hc : c.valid = true) (he : c2 = c) :
    (s.set_by_cell c v).get_by_cell c2 = v := by
  subst he
  exact get_set_self s c2 v hb hc

theorem get_after_cgo_branch (s0 : State) (c : Cell) :
    (if s0.isOriginal = true then s0.check_on_game_over else s0).get_by_cell c =
      s0.get_by_cell c := by
  split
  · exact cgo_get s0 c
  · rfl

theorem kings_after_cgo_branch (s0 : State) (col : Int) :
    (if s0.isOriginal = true then s0.check_on_game_over
      else s0).get_king_position_by_color col =
      s0.get_king_position_by_color col := by
  split
  · exact cgo_kings s0 col
  · rfl

theorem moveOk_make_move (s : State) (m : Move) :
    moveOk (s.make_move m) = moveOk (s.make_move_inner m) := by
  unfold State.make_move
  rcases h : s.make_move_inner m with e | s1 <;> simp [moveOk]

theorem boardWF_state_set {s : State} (h : boardWF s.board = true) (c : Cell)
    (v : Option Figure) : boardWF (s.set_by_cell c v).board = true := by
  rw [set_board]
  exact boardWF_setCell h c v

/-- A diagonal pawn move onto an empty square reduces `Pawn.make_move` to the
en-passant branch. -/
theorem pawn_ep_branch (s : State) (f : Figure) (cell : Cell)
    (hdx : (f.pos.x - cell.x).natAbs = 1) (hdy : f.pos.y + f.color = cell.y)
    (hempty : s.get_by_cell cell = none) :
    Pawn.make_move s f cell =
      (match s.get_by_cell ⟨cell.x, f.pos.y⟩ with
        | none => .error s
        | some g =>
          if g.color == f.color then .error s
          else if !(g.kind == .pawn) then .error s
          else if !(g.numberOfMoves == 1) then .error s
          else
            match g.last_move with
            | none => .error s
            | some lm =>
              if !(s.numberOfMoves == lm.moveNumber) then .error s
              else
                match f.move_on_copy s cell with
                | none => .error s
                | some sc0 =>
                  if (sc0.set_by_cell g.pos none).is_king_in_check f.color then
                    .error (syncMoves s sc0)
                  else .ok ((f.unchecked_move (syncMoves s sc0) cell).set_by_cell
                    g.pos none)) := by
  have hxne : (f.pos.x == cell.x) = false := by
    simp only [beq_eq_false_iff_ne, ne_eq]
    intro hcon
    rw [hcon] at hdx
    simp at hdx
  unfold Pawn.make_move
  rw [hxne, hempty]
  simp [hdx, hdy]

/-- C7 (amended): a diagonal pawn move onto an empty square is accepted iff
the square directly behind the target holds an enemy Pawn whose move count is
exactly 1 and whose single recorded move carries the current ply number, and
the simulated capture leaves the own king safe.  The code never checks that
that recorded move was a TWO-square advance, so (contrary to the original
claim) a one-square first advance made on the immediately preceding ply is
also capturable; a double-stepped pawn is indeed no longer capturable one ply
later, because the recorded ply number then differs from the counter. -/
theorem C7_en_passant_condition (s : State) (f : Figure) (cell : Cell)
    (hdx : (f.pos.x - cell.x).natAbs = 1) (hdy : f.pos.y + f.color = cell.y)
    (hempty : s.get_by_cell cell = none) :
    (moveOk (Pawn.make_move s f cell) = true ↔
      ∃ g sc0, s.get_by_cell ⟨cell.x, f.pos.y⟩ = some g ∧
        g.color ≠ f.color ∧ g.kind = .pawn ∧ g.numberOfMoves = 1 ∧
        (∃ lm, g.last_move = some lm ∧ lm.moveNumber = s.numberOfMoves) ∧
        f.move_on_copy s cell = some sc0 ∧
        (sc0.set_by_cell g.pos none).is_king_in_check f.color = false) := by
  rw [pawn_ep_branch s f cell hdx hdy hempty]
  constructor
  · intro h
    repeat' split at h
    all_goals simp [moveOk] at h
    next xa g heq h1 h2 h3 xb lm hlm h4 xc sc0 hmoc h5 =>
      refine ⟨g, sc0, heq, by simpa using h1, by simpa using h2, by simpa using h3,
        ⟨lm, hlm, ?_⟩, hmoc, by simpa using h5⟩
      have h6 : (s.numberOfMoves == lm.moveNumber) = true := by
        rcases Bool.eq_false_or_eq_true (s.numberOfMoves == lm.moveNumber) with hh | hh
        · exact hh
        · exact absurd (by rw [hh]; rfl) h4
      rw [beq_iff_eq] at h6
      exact h6.symm
  · rintro ⟨g, sc0, hg, h1, h2, h3, ⟨lm, hlm, h4⟩, hmoc, h5⟩
    split
    · next heq => rw [hg] at heq; exact Option.noConfusion heq
    · next g2 heq =>
      rw [hg] at heq
      injection heq with heq2
      subst heq2
      rw [if_neg (by simp [h1]), if_neg (by simp [h2]), if_neg (by simp [h3])]
      split
      · next heq3 => rw [hlm] at heq3; exact Option.noConfusion heq3
      · next lm2 heq3 =>
        rw [hlm] at heq3
        injection heq3 with heq4
        subst heq4
        rw [if_neg (by simp [h4])]
        split
        · next heq5 => rw [hmoc] at heq5; exact Option.noConfusion heq5
        · next sc2 heq5 =>
          rw [hmoc] at heq5
          injection heq5 with heq6
          subst heq6
          rw [if_neg (by simp [h5])]
          rfl

theorem set_kings (s : State) (c : Cell) (v : Option Figure) (col : Int) :
    (s.set_by_cell c v).get_king_position_by_color col =
      s.get_king_position_by_color col := by
  unfold State.get_king_position_by_color
  split <;> rfl

theorem um_kings (f : Figure) (s : State) (c : Cell) (col : Int) :
    (f.unchecked_move s c).get_king_position_by_color col =
      s.get_king_position_by_color col := by
  unfold State.get_king_position_by_color
  split <;> rfl

theorem get_unchecked_eq (s : State) (f : Figure) (c c2 : Cell) :
    (f.unchecked_move s c).get_by_cell c2 =
      ((s.set_by_cell c (some (f.moved s c))).set_by_cell f.pos none).get_by_cell c2 :=
  get_congr c2 rfl

theorem get_unchecked_self (s : State) (f : Figure) (c : Cell)
    (hwf : boardWF s.board = true) (hc : c.valid = true) (hfp : f.pos.valid = true)
    (hne : c ≠ f.pos) :
    (f.unchecked_move s c).get_by_cell c = some (f.moved s c) := by
  rw [get_unchecked_eq,
    get_set_ne _ _ _ _ hfp hc (by exact fun hcon => hne hcon.symm),
    get_set_self _ _ _ hwf hc]

theorem get_unchecked_src (s : State) (f : Figure) (c : Cell)
    (hwf : boardWF s.board = true) (hfp : f.pos.valid = true) :
    (f.unchecked_move s c).get_by_cell f.pos = none := by
  rw [get_unchecked_eq, get_set_self _ _ _ (boardWF_state_set hwf c _) hfp]

theorem get_unchecked_other (s : State) (f : Figure) (c c2 : Cell)
    (hc : c.valid = true) (hfp : f.pos.valid = true)
    (hc2 : c2.valid = true) (hne1 : c2 ≠ c) (hne2 : c2 ≠ f.pos) :
    (f.unchecked_move s c).get_by_cell c2 = s.get_by_cell c2 := by
  rw [get_unchecked_eq,
    get_set_ne _ _ _ _ hfp hc2 (by exact fun hcon => hne2 hcon.symm),
    get_set_ne _ _ _ _ hc hc2 (by exact fun hcon => hne1 hcon.symm)]

/-- Under the castling-branch trigger, `make_move_inner` is `King.castle`. -/
theorem inner_eq_castle (s : State) (m : Move) (f r : Figure)
    (hget : s.get_by_cell m.cellFrom = some f) (hkind : f.kind = .king)
    (hturn : f.color = s.whose_move)
    (hr : s.get_by_cell m.cellTo = some r) (hrk : r.kind = .rook)
    (hr0 : r.numberOfMoves = 0) (hf0 : f.numberOfMoves = 0) :
    s.make_move_inner m = King.castle s f r m.cellTo := by
  unfold State.make_move_inner
  rw [hget]
  show (if (f.color != s.whose_move) = true then Except.error s
    else f.make_move s m.cellTo) = King.castle s f r m.cellTo
  rw [if_neg (by simp [hturn])]
  unfold Figure.make_move
  rw [hkind]
  show King.make_move s f m.cellTo = King.castle s f r m.cellTo
  unfold King.make_move
  rw [hr]
  show (if r.kind = .rook ∧ r.numberOfMoves = 0 ∧ f.numberOfMoves = 0
    then King.castle s f r m.cellTo else King.normal s f m.cellTo) = _
  rw [if_pos ⟨hrk, hr0, hf0⟩]

/-! ### Claim theorems -/

/-- C1: the claim states that a pawn at `(x, y)` of color `c` attacks exactly
the cells with `|dx| = 1` and `ty - y = c` (one rank forward).  The code
instead tests `pos.y == cell.y + color`, i.e. one rank BACKWARD: the white b2
pawn of the initial position attacks c1 and not c3. -/
theorem C1_pawn_attack_is_backward :
    State.initial.get_by_cell ⟨2, 2⟩ = some (fig .pawn 1 2 2) ∧
    (fig .pawn 1 2 2).is_cell_under_attack State.initial ⟨3, 3⟩ = false ∧
    (fig .pawn 1 2 2).is_cell_under_attack State.initial ⟨3, 1⟩ = true ∧
    ((3 : Int) - 2 = 1 ∧ (3 : Int) - 2 = 1) ∧ ((3 : Int) - 2 = 1 ∧ (1 : Int) - 2 = -1) := by
  refine ⟨by decide, by decide, by decide, by decide, by decide⟩

/-- C2: the claim states every piece variant rejects capturing a figure of
its own color.  `Queen/Rook/Bishop/Knight.make_move` never compare the
destination occupant color: from the very initial position, the white
knight b1 jumps onto the white pawn d2 and the move is accepted. -/
theorem C2_knight_captures_own_piece :
    (State.initial.get_by_cell ⟨2, 1⟩).map Figure.kind = some .knight ∧
    (State.initial.get_by_cell ⟨2, 1⟩).map Figure.color = some 1 ∧
    (State.initial.get_by_cell ⟨4, 2⟩).map Figure.color = some 1 ∧
    State.initial.whose_move = 1 ∧
    moveOk (State.initial.make_move ⟨⟨2, 1⟩, ⟨4, 2⟩⟩) = true := by
  refine ⟨by decide, by decide, by decide, by decide, by decide⟩

/-- C3: the claim states `get_possible_moves` returns exactly the accepted
destinations, in particular every legal two-square pawn first advance.
`Pawn.get_possible_moves` scans only the three one-step candidates: e2-e4 is
accepted by `make_move` on the initial position, yet the enumeration for e2
returns only e3. -/
theorem C3_double_step_missing_from_enumeration :
    moveOk (State.initial.make_move ⟨⟨5, 2⟩, ⟨5, 4⟩⟩) = true ∧
    State.initial.get_possible_moves ⟨5, 2⟩ = [⟨5, 3⟩] := by
  refine ⟨by decide, by decide⟩

/-- C4 counterexample: the claim says a rejected move leaves the `State`
unchanged.  In `sC4` the quiet advance a2-a3 is rejected (the white king
stays in check by the e8 rook), yet the raised-with state carries the
simulated move in the global history: the speculative clone shares the
`moves` list with the original, so its `_add_move` already wrote through. -/
theorem C4_counterexample :
    sC4.WF = true ∧ sC4.moves = [] ∧
    moveOk (sC4.make_move ⟨⟨1, 2⟩, ⟨1, 3⟩⟩) = false ∧
    (afterMove sC4 ⟨⟨1, 2⟩, ⟨1, 3⟩⟩).moves = [⟨⟨1, 2⟩, ⟨1, 3⟩, 1⟩] := by
  refine ⟨by decide, by decide, by decide, by decide⟩

/-- C4 (corrected): a rejected `make_move` leaves the board, the ply counter,
the king caches, the game-over fields and originality untouched - but not
the whole `State`: a rejection raised after the speculative clone was built
has already appended the simulated move to the shared global history, so the
error state is the input state with at most one extra history entry. -/
theorem C4_rejected_move_pollution (s : State) (m : Move) (e : State)
    (hWF : s.WF = true) (h : s.make_move m = .error e) :
    e.board = s.board ∧ e.numberOfMoves = s.numberOfMoves ∧
    e.isGameOver = s.isGameOver ∧ e.winningSide = s.winningSide ∧
    e.whiteKingPos = s.whiteKingPos ∧ e.blackKingPos = s.blackKingPos ∧
    e.isOriginal = s.isOriginal ∧
    (e = s ∨ ∃ em, e = s.extendMoves [em]) := by
  unfold State.make_move at h
  split at h
  · next heq =>
    injection h with h2
    subst h2
    rcases inner_error hWF heq with he | ⟨em, he⟩
    · subst he
      exact ⟨rfl, rfl, rfl, rfl, rfl, rfl, rfl, Or.inl rfl⟩
    · subst he
      exact ⟨rfl, rfl, rfl, rfl, rfl, rfl, rfl, Or.inr ⟨em, rfl⟩⟩
  · exact Except.noConfusion h

/-- C4 (corrected) witness at the rejected a2-a3 of `sC4`. -/
theorem C4_witness :
    sC4.WF = true ∧
    moveOk (sC4.make_move ⟨⟨1, 2⟩, ⟨1, 3⟩⟩) = false ∧
    ((afterMove sC4 ⟨⟨1, 2⟩, ⟨1, 3⟩⟩).board = sC4.board ∧
      (afterMove sC4 ⟨⟨1, 2⟩, ⟨1, 3⟩⟩).numberOfMoves = sC4.numberOfMoves ∧
      (afterMove sC4 ⟨⟨1, 2⟩, ⟨1, 3⟩⟩).isGameOver = sC4.isGameOver ∧
      (afterMove sC4 ⟨⟨1, 2⟩, ⟨1, 3⟩⟩).winningSide = sC4.winningSide ∧
      (afterMove sC4 ⟨⟨1, 2⟩, ⟨1, 3⟩⟩).whiteKingPos = sC4.whiteKingPos ∧
      (afterMove sC4 ⟨⟨1, 2⟩, ⟨1, 3⟩⟩).blackKingPos = sC4.blackKingPos ∧
      (afterMove sC4 ⟨⟨1, 2⟩, ⟨1, 3⟩⟩).isOriginal = sC4.isOriginal ∧
      (afterMove sC4 ⟨⟨1, 2⟩, ⟨1, 3⟩⟩ = sC4 ∨
        ∃ em, afterMove sC4 ⟨⟨1, 2⟩, ⟨1, 3⟩⟩ = sC4.extendMoves [em])) :=
  ⟨by decide, by decide,
    C4_rejected_move_pollution sC4 ⟨⟨1, 2⟩, ⟨1, 3⟩⟩
      (afterMove sC4 ⟨⟨1, 2⟩, ⟨1, 3⟩⟩) (by decide) rfl⟩

/-- C5 counterexample: the claim says an accepted move appends exactly ONE
`EnumeratedMove` to the global history.  The very first move e2-e4 appends
FOUR: the simulation writes through the shared clone list, the commit writes
again, and the game-over detector's accepted probe a7-a6 writes twice more. -/
theorem C5_counterexample :
    State.initial.moves = [] ∧
    moveOk (State.initial.make_move ⟨⟨5, 2⟩, ⟨5, 4⟩⟩) = true ∧
    (afterMove State.initial ⟨⟨5, 2⟩, ⟨5, 4⟩⟩).moves =
      [⟨⟨5, 2⟩, ⟨5, 4⟩, 1⟩, ⟨⟨5, 2⟩, ⟨5, 4⟩, 1⟩,
       ⟨⟨1, 7⟩, ⟨1, 6⟩, 2⟩, ⟨⟨1, 7⟩, ⟨1, 6⟩, 2⟩] := by
  refine ⟨by decide, by decide, by decide⟩

/-- C5 (corrected): an accepted `make_move` increments the ply counter by one
and flips `whose_move`, but appends at least TWO copies of the move (both
carrying the next ply number) to the global history - one by the simulated
validation through the shared clone list, one by the commit - followed by
whatever the game-over detector's probes appended.  The per-figure half of
the claim does hold: the relocated figure copy carries its old history plus
exactly the one move. -/
theorem C5_accepted_move_bookkeeping :
    (∀ (s : State) (m : Move) (s1 : State), s.make_move m = .ok s1 →
      s1.numberOfMoves = s.numberOfMoves + 1 ∧
      (∃ (e1 e2 : EnumeratedMove) (rest : List EnumeratedMove),
        e1.moveNumber = s.numberOfMoves + 1 ∧ e2.moveNumber = s.numberOfMoves + 1 ∧
        s1.moves = s.moves ++ e1 :: e2 :: rest) ∧
      s1.whose_move = -s.whose_move) ∧
    (∀ (f : Figure) (s : State) (c : Cell),
      (f.moved s c).moves = f.moves ++ [⟨f.pos, c, s.numberOfMoves + 1⟩] ∧
      (f.moved s c).numberOfMoves = f.numberOfMoves + 1) := by
  constructor
  · intro s m s1 h
    unfold State.make_move at h
    split at h
    · exact Except.noConfusion h
    · next s0 heq =>
      injection h with h2
      subst h2
      obtain ⟨h1, ⟨e1, e2, he1, he2, hm⟩, -, -⟩ := inner_ok heq
      refine ⟨?_, ?_, ?_⟩
      · split
        · rw [cgo_count, h1]
        · exact h1
      · refine ⟨e1, e2, ?_⟩
        split
        · obtain ⟨-, -, -, -, -, l, hl⟩ := cgo_shape s0
          exact ⟨l, he1, he2, by rw [hl, hm, List.append_assoc]; rfl⟩
        · exact ⟨[], he1, he2, by rw [hm]⟩
      · apply whose_move_flip
        split
        · rw [cgo_count, h1]
        · exact h1
  · intro f s c
    exact ⟨rfl, rfl⟩

/-- C5 (corrected) witness at the accepted opening move e2-e4. -/
theorem C5_witness :
    ((afterMove State.initial ⟨⟨5, 2⟩, ⟨5, 4⟩⟩).numberOfMoves =
        State.initial.numberOfMoves + 1 ∧
      (∃ (e1 e2 : EnumeratedMove) (rest : List EnumeratedMove),
        e1.moveNumber = State.initial.numberOfMoves + 1 ∧
        e2.moveNumber = State.initial.numberOfMoves + 1 ∧
        (afterMove State.initial ⟨⟨5, 2⟩, ⟨5, 4⟩⟩).moves =
          State.initial.moves ++ e1 :: e2 :: rest) ∧
      (afterMove State.initial ⟨⟨5, 2⟩, ⟨5, 4⟩⟩).whose_move =
        -State.initial.whose_move) ∧
    ((fig .pawn 1 5 2).moved State.initial ⟨5, 4⟩).moves =
      (fig .pawn 1 5 2).moves ++ [⟨⟨5, 2⟩, ⟨5, 4⟩, State.initial.numberOfMoves + 1⟩] ∧
    ((fig .pawn 1 5 2).moved State.initial ⟨5, 4⟩).numberOfMoves =
      (fig .pawn 1 5 2).numberOfMoves + 1 :=
  ⟨C5_accepted_move_bookkeeping.1 State.initial ⟨⟨5, 2⟩, ⟨5, 4⟩⟩
      (afterMove State.initial ⟨⟨5, 2⟩, ⟨5, 4⟩⟩) rfl,
    (C5_accepted_move_bookkeeping.2 (fig .pawn 1 5 2) State.initial ⟨5, 4⟩).1,
    (C5_accepted_move_bookkeeping.2 (fig .pawn 1 5 2) State.initial ⟨5, 4⟩).2⟩

/-- C8 counterexample: the claim ties game-over to TRUE legal-move existence.
In `stalemateTrap`, after white plays Ke1-e2 the detector declares the game
over (black has no enumerated move), yet black still has the legal two-square
advance a7-a5, which the very same state then accepts. -/
theorem C8_counterexample :
    moveOk (stalemateTrap.make_move ⟨⟨5, 1⟩, ⟨5, 2⟩⟩) = true ∧
    (afterMove stalemateTrap ⟨⟨5, 1⟩, ⟨5, 2⟩⟩).isGameOver = true ∧
    moveOk ((afterMove stalemateTrap ⟨⟨5, 1⟩, ⟨5, 2⟩⟩).make_move
      ⟨⟨1, 7⟩, ⟨1, 5⟩⟩) = true := by
  refine ⟨by decide, by decide, by decide⟩

/-- C8 (amended): after a committed move on an original state the detector
runs on the committed state and is keyed to the possible-move ENUMERATOR
(which omits pawn double steps): finding no move for the side now to move
ends the game, with winner = the side that just moved exactly when the dead
side's king is attacked; finding a move leaves the game-over flag and winner
as the committed move produced them.  The board and ply counter pass through
the detector unchanged; only the shared history may grow further, by the
enumeration probes. -/
theorem C8_game_over_detector (s : State) (m : Move) (s1 : State)
    (horig : s.isOriginal = true) (h : s.make_move m = .ok s1) :
    ∃ s0, s.make_move_inner m = .ok s0 ∧ s1 = s0.check_on_game_over ∧
      s0.whose_move = -s.whose_move ∧
      s1.board = s0.board ∧ s1.numberOfMoves = s0.numberOfMoves ∧
      (∃ l, s1.moves = s0.moves ++ l) ∧
      (s0.is_there_possible_moves_by_color s0.whose_move = false →
        s1.isGameOver = true ∧
        s1.winningSide =
          (if s0.is_king_in_check s0.whose_move then s.whose_move else 0)) ∧
      (s0.is_there_possible_moves_by_color s0.whose_move = true →
        s1.isGameOver = s.isGameOver ∧ s1.winningSide = s0.winningSide) := by
  unfold State.make_move at h
  split at h
  · exact Except.noConfusion h
  · next s0 heq =>
    injection h with h2
    subst h2
    obtain ⟨h1, -, h3, h4⟩ := inner_ok heq
    have horig0 : s0.isOriginal = true := h4.trans horig
    have hw := whose_move_flip s s0 h1
    have hbr : (if s0.isOriginal = true then s0.check_on_game_over else s0) =
        s0.check_on_game_over := by rw [horig0]; rfl
    rw [hbr]
    obtain ⟨g1, g2, -, -, -, l, hl⟩ := cgo_shape s0
    obtain ⟨o1, o2⟩ := cgo_outcome s0
    refine ⟨s0, heq, rfl, hw, g1, g2, ⟨l, hl⟩, ?_, ?_⟩
    · intro hp
      obtain ⟨w1, w2⟩ := o1 hp
      refine ⟨w1, ?_⟩
      rw [w2, hw]
      split
      · ring
      · rfl
    · intro hp
      obtain ⟨w1, w2⟩ := o2 hp
      exact ⟨w1.trans h3, w2⟩

/-- C8 (amended) witness: the detector outcome at the committed move
Ke1-e2 of `stalemateTrap` (which ends the game by enumerator exhaustion). -/
theorem C8_witness :
    ∃ s0, stalemateTrap.make_move_inner ⟨⟨5, 1⟩, ⟨5, 2⟩⟩ = .ok s0 ∧
      afterMove stalemateTrap ⟨⟨5, 1⟩, ⟨5, 2⟩⟩ = s0.check_on_game_over ∧
      s0.whose_move = -stalemateTrap.whose_move ∧
      (afterMove stalemateTrap ⟨⟨5, 1⟩, ⟨5, 2⟩⟩).board = s0.board ∧
      (afterMove stalemateTrap ⟨⟨5, 1⟩, ⟨5, 2⟩⟩).numberOfMoves = s0.numberOfMoves ∧
      (∃ l, (afterMove stalemateTrap ⟨⟨5, 1⟩, ⟨5, 2⟩⟩).moves = s0.moves ++ l) ∧
      (s0.is_there_possible_moves_by_color s0.whose_move = false →
        (afterMove stalemateTrap ⟨⟨5, 1⟩, ⟨5, 2⟩⟩).isGameOver = true ∧
        (afterMove stalemateTrap ⟨⟨5, 1⟩, ⟨5, 2⟩⟩).winningSide =
          (if s0.is_king_in_check s0.whose_move then stalemateTrap.whose_move else 0)) ∧
      (s0.is_there_possible_moves_by_color s0.whose_move = true →
        (afterMove stalemateTrap ⟨⟨5, 1⟩, ⟨5, 2⟩⟩).isGameOver =
          stalemateTrap.isGameOver ∧
        (afterMove stalemateTrap ⟨⟨5, 1⟩, ⟨5, 2⟩⟩).winningSide = s0.winningSide) :=
  C8_game_over_detector stalemateTrap ⟨⟨5, 1⟩, ⟨5, 2⟩⟩
    (afterMove stalemateTrap ⟨⟨5, 1⟩, ⟨5, 2⟩⟩) rfl rfl

/-- C9 counterexample: the claim says a game-over state is terminal.  After
the detector ends the game in `stalemateTrap` + Ke1-e2, the double step
a7-a5 is still accepted and both the board and the ply counter change. -/
theorem C9_counterexample :
    (afterMove stalemateTrap ⟨⟨5, 1⟩, ⟨5, 2⟩⟩).isGameOver = true ∧
    moveOk ((afterMove stalemateTrap ⟨⟨5, 1⟩, ⟨5, 2⟩⟩).make_move
      ⟨⟨1, 7⟩, ⟨1, 5⟩⟩) = true ∧
    (afterMove stalemateTrap ⟨⟨5, 1⟩, ⟨5, 2⟩⟩).numberOfMoves = 1 ∧
    (afterMove (afterMove stalemateTrap ⟨⟨5, 1⟩, ⟨5, 2⟩⟩) ⟨⟨1, 7⟩, ⟨1, 5⟩⟩).numberOfMoves = 2 ∧
    (afterMove (afterMove stalemateTrap ⟨⟨5, 1⟩, ⟨5, 2⟩⟩) ⟨⟨1, 7⟩, ⟨1, 5⟩⟩).board ≠
      (afterMove stalemateTrap ⟨⟨5, 1⟩, ⟨5, 2⟩⟩).board := by
  refine ⟨by decide, by decide, by decide, by decide, by decide⟩

/-- C9 (amended): `make_move` has no game-over guard, but the flag is never
reset: any accepted move from a game-over state leaves `isGameOver` true. -/
theorem C9_game_over_flag_monotone (s : State) (m : Move) (s1 : State)
    (h : s.make_move m = .ok s1) (hgo : s.isGameOver = true) : s1.isGameOver = true := by
  unfold State.make_move at h
  split at h
  · exact Except.noConfusion h
  · next s0 heq =>
    cases h
    obtain ⟨_, _, h3, _⟩ := inner_ok heq
    split
    · exact cgo_over_monotone _ (h3.trans hgo)
    · exact h3.trans hgo

/-- C9 (amended) witness: the flag survives the post-game-over move a7-a5. -/
theorem C9_witness :
    (afterMove stalemateTrap ⟨⟨5, 1⟩, ⟨5, 2⟩⟩).isGameOver = true ∧
    (afterMove (afterMove stalemateTrap ⟨⟨5, 1⟩, ⟨5, 2⟩⟩) ⟨⟨1, 7⟩, ⟨1, 5⟩⟩).isGameOver = true :=
  ⟨by decide,
    C9_game_over_flag_monotone (afterMove stalemateTrap ⟨⟨5, 1⟩, ⟨5, 2⟩⟩) ⟨⟨1, 7⟩, ⟨1, 5⟩⟩
      (afterMove (afterMove stalemateTrap ⟨⟨5, 1⟩, ⟨5, 2⟩⟩) ⟨⟨1, 7⟩, ⟨1, 5⟩⟩) rfl (by decide)⟩

/-- C7 counterexample: in `singleStepState` the black d-pawn has made exactly
one recorded move, the ONE-square advance d7-d6, on the immediately preceding
ply; the claim says it is not capturable en passant, yet e6xd7 (a diagonal
move onto the empty d7 square) is accepted and removes the d6 pawn. -/
theorem C7_counterexample :
    singleStepState.get_by_cell ⟨4, 7⟩ = none ∧
    (singleStepState.get_by_cell ⟨4, 6⟩).bind Figure.last_move =
      some ⟨⟨4, 7⟩, ⟨4, 6⟩, 2⟩ ∧
    singleStepState.numberOfMoves = 2 ∧
    moveOk (singleStepState.make_move ⟨⟨5, 6⟩, ⟨4, 7⟩⟩) = true ∧
    (afterMove singleStepState ⟨⟨5, 6⟩, ⟨4, 7⟩⟩).get_by_cell ⟨4, 6⟩ = none := by
  refine ⟨by decide, by decide, by decide, by decide, by decide⟩

/-- C7 witness: the amended condition instantiated at `doubleStepState`,
where black really did double-step d7-d5 on the immediately preceding ply. -/
theorem C7_witness :
    moveOk (Pawn.make_move doubleStepState
        ({ fig .pawn 1 5 5 with moves := [⟨⟨5, 4⟩, ⟨5, 5⟩, 1⟩], numberOfMoves := 1 })
        ⟨4, 6⟩) = true ↔
      ∃ g sc0, doubleStepState.get_by_cell ⟨4, 5⟩ = some g ∧
        g.color ≠ 1 ∧ g.kind = .pawn ∧ g.numberOfMoves = 1 ∧
        (∃ lm, g.last_move = some lm ∧ lm.moveNumber = doubleStepState.numberOfMoves) ∧
        Figure.move_on_copy
          ({ fig .pawn 1 5 5 with moves := [⟨⟨5, 4⟩, ⟨5, 5⟩, 1⟩], numberOfMoves := 1 })
          doubleStepState ⟨4, 6⟩ = some sc0 ∧
        (sc0.set_by_cell g.pos none).is_king_in_check 1 = false :=
  C7_en_passant_condition doubleStepState
    ({ fig .pawn 1 5 5 with moves := [⟨⟨5, 4⟩, ⟨5, 5⟩, 1⟩], numberOfMoves := 1 })
    ⟨4, 6⟩ rfl rfl rfl

/-- C6 counterexample: the castling branch never compares the rook color with
the king color.  In `enemyRookState` the white king e1 "castles onto" the
never-moved BLACK rook d8 and the move is accepted (the claim requires the
destination rook to have the same color as the king). -/
theorem C6_counterexample :
    (enemyRookState.get_by_cell ⟨5, 1⟩).map Figure.kind = some .king ∧
    (enemyRookState.get_by_cell ⟨5, 1⟩).map Figure.color = some 1 ∧
    (enemyRookState.get_by_cell ⟨4, 8⟩).map Figure.kind = some .rook ∧
    (enemyRookState.get_by_cell ⟨4, 8⟩).map Figure.color = some (-1) ∧
    (enemyRookState.get_by_cell ⟨4, 8⟩).map Figure.numberOfMoves = some 0 ∧
    moveOk (enemyRookState.make_move ⟨⟨5, 1⟩, ⟨4, 8⟩⟩) = true := by
  refine ⟨by decide, by decide, by decide, by decide, by decide, by decide⟩

/-- C10: a pawn whose move count is zero moving two squares straight ahead is
accepted whenever the DESTINATION is empty and the king stays safe; the
intermediate square is never consulted, so the move is accepted even with a
blocking figure directly in front of the pawn (hypothesis `hblocked`). -/
theorem C10_double_step_ignores_intermediate (s : State) (m : Move) (f : Figure)
    (sc : State)
    (hget : s.get_by_cell m.cellFrom = some f) (hkind : f.kind = .pawn)
    (hturn : f.color = s.whose_move)
    (hx : f.pos.x = m.cellTo.x) (h0 : f.numberOfMoves = 0)
    (hy : f.pos.y + 2 * f.color = m.cellTo.y)
    (hblocked : (s.get_by_cell ⟨m.cellTo.x, f.pos.y + f.color⟩).isSome = true)
    (hdest : s.get_by_cell m.cellTo = none)
    (hnt : isTransformation f m.cellTo = false)
    (hcopy : f.move_on_copy s m.cellTo = some sc)
    (hsafe : sc.is_king_in_check f.color = false) :
    ∃ s1, s.make_move m = .ok s1 := by
  have hpawn : Pawn.make_move s f m.cellTo =
      .ok (f.unchecked_move (syncMoves s sc) m.cellTo) := by
    unfold Pawn.make_move
    rw [if_pos (by simp [hx, h0, hy]), hdest]
    simp only [Option.isSome_none, Bool.false_eq_true, if_false, hcopy, hnt]
    rw [if_neg (by simp [hsafe])]
  have hinner : s.make_move_inner m =
      .ok (f.unchecked_move (syncMoves s sc) m.cellTo) := by
    unfold State.make_move_inner
    rw [hget]
    show (if (f.color != s.whose_move) = true then Except.error s
      else f.make_move s m.cellTo) =
      Except.ok (f.unchecked_move (syncMoves s sc) m.cellTo)
    rw [if_neg (by simp [hturn])]
    unfold Figure.make_move
    rw [hkind]
    exact hpawn
  unfold State.make_move
  rw [hinner]
  exact ⟨_, rfl⟩

/-- C10 witness: in `blockedPawnState` a black knight stands on e3, directly
in front of the unmoved white e2 pawn, and e2-e4 is still accepted. -/
theorem C10_witness :
    (blockedPawnState.get_by_cell ⟨5, 3⟩).isSome = true ∧
    (∃ s1, blockedPawnState.make_move ⟨⟨5, 2⟩, ⟨5, 4⟩⟩ = .ok s1) :=
  ⟨by decide,
    C10_double_step_ignores_intermediate blockedPawnState ⟨⟨5, 2⟩, ⟨5, 4⟩⟩
      (fig .pawn 1 5 2) _ rfl rfl rfl rfl rfl rfl (by decide) rfl rfl rfl (by decide)⟩

/-- C6 (amended): the castling branch fires for ANY never-moved rook on the
destination (its color is not compared with the king, contrary to the
original claim).  For a proper same-rank rook at file distance at least 3,
the compound move is accepted iff the squares strictly between the two files
are empty, the king is not currently attacked, the rook transit square is not
attacked by the opponent, and the fully simulated result leaves the king
safe; every failed check rejects the whole compound move - leaving board,
counters, caches and flags unchanged, though a post-simulation failure has
already appended the simulated king step to the shared history - and on
success the king and rook are relocated in one transaction with the
king-position cache updated alongside the board write. -/
theorem C6_castling_characterization (s : State) (m : Move) (f r : Figure)
    (hWF : s.WF = true)
    (hget : s.get_by_cell m.cellFrom = some f) (hkind : f.kind = .king)
    (hturn : f.color = s.whose_move)
    (hr : s.get_by_cell m.cellTo = some r) (hrk : r.kind = .rook)
    (hr0 : r.numberOfMoves = 0) (hf0 : f.numberOfMoves = 0)
    (hrank : m.cellTo.y = f.pos.y)
    (hsep : 3 ≤ (m.cellTo.x - f.pos.x).natAbs)
    (hcv : m.cellTo.valid = true) :
    (moveOk (s.make_move m) = true ↔
      ((intRange (min f.pos.x m.cellTo.x + 1) (max f.pos.x m.cellTo.x)).all
          (fun x => (s.get_by_cell ⟨x, m.cellTo.y⟩).isNone) = true ∧
        s.is_king_in_check f.color = false ∧
        s.is_cell_under_attack (castleRookNew f m.cellTo) (f.color * -1) = false ∧
        ∃ sc, rookShift (State.change_king_position_by_color
              (f.unchecked_move s.get_copy (castleKingNew f m.cellTo))
              (castleKingNew f m.cellTo) f.color)
            r.pos (castleRookNew f m.cellTo) = .ok sc ∧
          sc.is_king_in_check f.color = false)) ∧
    (∀ e, s.make_move m = .error e →
      e = s ∨ ∃ em, e = s.extendMoves [em]) ∧
    (∀ s1, s.make_move m = .ok s1 →
      s1.get_by_cell (castleKingNew f m.cellTo) =
        some (f.moved s (castleKingNew f m.cellTo)) ∧
      s1.get_by_cell (castleRookNew f m.cellTo) =
        some { r with pos := castleRookNew f m.cellTo } ∧
      s1.get_by_cell f.pos = none ∧
      s1.get_by_cell m.cellTo = none ∧
      s1.get_king_position_by_color f.color = castleKingNew f m.cellTo) := by
  obtain ⟨hfv, hfself⟩ := WF_get_self s m.cellFrom f hWF hget
  have hrpos : r.pos = m.cellTo := WF_get_pos_eq s m.cellTo r hWF hr hcv
  obtain ⟨fb1, fb2, fb3, fb4⟩ := valid_bounds hfv
  obtain ⟨cb1, cb2, cb3, cb4⟩ := valid_bounds hcv
  have hb8 : boardWF s.board = true := WF_board hWF
  have hsd : (sign (m.cellTo.x - f.pos.x) = 1 ∧ 3 ≤ m.cellTo.x - f.pos.x) ∨
      (sign (m.cellTo.x - f.pos.x) = -1 ∧ m.cellTo.x - f.pos.x ≤ -3) := by
    rcases (by omega : 3 ≤ m.cellTo.x - f.pos.x ∨ m.cellTo.x - f.pos.x ≤ -3) with hd | hd
    · exact Or.inl ⟨sign_of_ge _ hd, hd⟩
    · exact Or.inr ⟨sign_of_le _ hd, hd⟩
  have hKv : (castleKingNew f m.cellTo).valid = true := by
    rcases hsd with ⟨hs, hd⟩ | ⟨hs, hd⟩ <;>
      · apply valid_of_bounds <;> simp [castleKingNew, hs] <;> omega
  have hRNv : (castleRookNew f m.cellTo).valid = true := by
    rcases hsd with ⟨hs, hd⟩ | ⟨hs, hd⟩ <;>
      · apply valid_of_bounds <;> simp [castleRookNew, hs] <;> omega
  have hKF : castleKingNew f m.cellTo ≠ f.pos := by
    intro hcon
    have hx := congrArg Cell.x hcon
    simp only [castleKingNew] at hx
    rcases hsd with ⟨hs, hd⟩ | ⟨hs, hd⟩ <;> rw [hs] at hx <;> omega
  have hKC : castleKingNew f m.cellTo ≠ m.cellTo := by
    intro hcon
    have hx := congrArg Cell.x hcon
    simp only [castleKingNew] at hx
    rcases hsd with ⟨hs, hd⟩ | ⟨hs, hd⟩ <;> rw [hs] at hx <;> omega
  have hRF : castleRookNew f m.cellTo ≠ f.pos := by
    intro hcon
    have hx := congrArg Cell.x hcon
    simp only [castleRookNew] at hx
    rcases hsd with ⟨hs, hd⟩ | ⟨hs, hd⟩ <;> rw [hs] at hx <;> omega
  have hRC : castleRookNew f m.cellTo ≠ m.cellTo := by
    intro hcon
    have hx := congrArg Cell.x hcon
    simp only [castleRookNew] at hx
    rcases hsd with ⟨hs, hd⟩ | ⟨hs, hd⟩ <;> rw [hs] at hx <;> omega
  have hRK : castleRookNew f m.cellTo ≠ castleKingNew f m.cellTo := by
    intro hcon
    have hx := congrArg Cell.x hcon
    simp only [castleRookNew, castleKingNew] at hx
    rcases hsd with ⟨hs, hd⟩ | ⟨hs, hd⟩ <;> rw [hs] at hx <;> omega
  have hFC : f.pos ≠ m.cellTo := by
    intro hcon
    have hx := congrArg Cell.x hcon
    omega
  have hsKr : (State.change_king_position_by_color
      (f.unchecked_move
        (syncMoves s (f.unchecked_move s.get_copy (castleKingNew f m.cellTo)))
        (castleKingNew f m.cellTo))
      (castleKingNew f m.cellTo) f.color).get_by_cell r.pos = some r := by
    rw [chk_get, hrpos,
      get_unchecked_other _ f _ _ hKv hfv hcv (by exact fun hcon => hKC hcon.symm)
        (by exact fun hcon => hFC hcon.symm), sync_get, hr]
  have hwfK : boardWF (State.change_king_position_by_color
      (f.unchecked_move
        (syncMoves s (f.unchecked_move s.get_copy (castleKingNew f m.cellTo)))
        (castleKingNew f m.cellTo))
      (castleKingNew f m.cellTo) f.color).board = true := by
    rw [chk_board, um_board]
    exact boardWF_setCell (boardWF_setCell hb8 _ _) _ _
  have hshift_commit :
      rookShift (State.change_king_position_by_color
          (f.unchecked_move
            (syncMoves s (f.unchecked_move s.get_copy (castleKingNew f m.cellTo)))
            (castleKingNew f m.cellTo))
          (castleKingNew f m.cellTo) f.color)
        r.pos (castleRookNew f m.cellTo) =
      .ok (State.set_by_cell (State.set_by_cell (State.set_by_cell
          (State.change_king_position_by_color
            (f.unchecked_move
              (syncMoves s (f.unchecked_move s.get_copy (castleKingNew f m.cellTo)))
              (castleKingNew f m.cellTo))
            (castleKingNew f m.cellTo) f.color)
          (castleRookNew f m.cellTo) (some r))
          (castleRookNew f m.cellTo) (some { r with pos := castleRookNew f m.cellTo }))
          r.pos none) := by
    unfold rookShift
    rw [hsKr, get_set_self _ _ _ hwfK hRNv]
  have hscKb : (State.change_king_position_by_color
      (f.unchecked_move s.get_copy (castleKingNew f m.cellTo))
      (castleKingNew f m.cellTo) f.color).board =
      (State.change_king_position_by_color
      (f.unchecked_move
        (syncMoves s (f.unchecked_move s.get_copy (castleKingNew f m.cellTo)))
        (castleKingNew f m.cellTo))
      (castleKingNew f m.cellTo) f.color).board := by
    simp
  have hscKr : (State.change_king_position_by_color
      (f.unchecked_move s.get_copy (castleKingNew f m.cellTo))
      (castleKingNew f m.cellTo) f.color).get_by_cell r.pos = some r :=
    (get_congr _ hscKb).trans hsKr
  have hwfscK : boardWF (State.change_king_position_by_color
      (f.unchecked_move s.get_copy (castleKingNew f m.cellTo))
      (castleKingNew f m.cellTo) f.color).board = true := by
    rw [hscKb]
    exact hwfK
  have hshift_clone :
      rookShift (State.change_king_position_by_color
          (f.unchecked_move s.get_copy (castleKingNew f m.cellTo))
          (castleKingNew f m.cellTo) f.color)
        r.pos (castleRookNew f m.cellTo) =
      .ok (State.set_by_cell (State.set_by_cell (State.set_by_cell
          (State.change_king_position_by_color
            (f.unchecked_move s.get_copy (castleKingNew f m.cellTo))
            (castleKingNew f m.cellTo) f.color)
          (castleRookNew f m.cellTo) (some r))
          (castleRookNew f m.cellTo) (some { r with pos := castleRookNew f m.cellTo }))
          r.pos none) := by
    unfold rookShift
    rw [hscKr, get_set_self _ _ _ hwfscK hRNv]
  have hcastle : s.make_move_inner m = King.castle s f r m.cellTo :=
    inner_eq_castle s m f r hget hkind hturn hr hrk hr0 hf0
  refine ⟨?_, ?_, ?_⟩
  · rw [moveOk_make_move, hcastle]
    unfold King.castle
    simp only [move_on_copy_some s f _ hfself, hKv, hRNv, Bool.not_true, Bool.false_eq_true,
      if_false, hshift_clone, hshift_commit]
    cases hbw : ((intRange (min f.pos.x m.cellTo.x + 1) (max f.pos.x m.cellTo.x)).all
        (fun x => (s.get_by_cell ⟨x, m.cellTo.y⟩).isNone)) <;>
      cases hic : s.is_king_in_check f.color <;>
        cases hat : s.is_cell_under_attack (castleRookNew f m.cellTo) (f.color * -1) <;>
          simp [hbw, hic, hat, moveOk_error, moveOk_ok, moveOk_ite_error]
  · intro e he
    unfold State.make_move at he
    split at he
    · next heq =>
      injection he with h2
      subst h2
      exact inner_error hWF heq
    · exact Except.noConfusion he
  · intro s1 h1
    unfold State.make_move at h1
    split at h1
    · exact Except.noConfusion h1
    · next s0 heq =>
      cases h1
      rw [hcastle] at heq
      unfold King.castle at heq
      simp only [move_on_copy_some s f _ hfself, hKv, hRNv, Bool.not_true, Bool.false_eq_true,
        if_false, hshift_clone, hshift_commit] at heq
      repeat' split at heq
      all_goals try exact Except.noConfusion heq
      next hkc =>
        cases heq
        have hrv : r.pos.valid = true := by rw [hrpos]; exact hcv
        have hwf1 : boardWF (State.set_by_cell (State.change_king_position_by_color
            (f.unchecked_move
              (syncMoves s (f.unchecked_move s.get_copy (castleKingNew f m.cellTo)))
              (castleKingNew f m.cellTo))
            (castleKingNew f m.cellTo) f.color)
            (castleRookNew f m.cellTo) (some r)).board = true :=
          boardWF_state_set hwfK _ _
        have hwf2 : boardWF (State.set_by_cell (State.set_by_cell
            (State.change_king_position_by_color
              (f.unchecked_move
                (syncMoves s (f.unchecked_move s.get_copy (castleKingNew f m.cellTo)))
                (castleKingNew f m.cellTo))
              (castleKingNew f m.cellTo) f.color)
            (castleRookNew f m.cellTo) (some r))
            (castleRookNew f m.cellTo)
            (some { r with pos := castleRookNew f m.cellTo })).board = true :=
          boardWF_state_set hwf1 _ _
        refine ⟨?_, ?_, ?_, ?_, ?_⟩
        · rw [get_after_cgo_branch,
            get_set_ne _ r.pos _ _ hrv hKv
              (by rw [hrpos]; exact fun hcon => hKC hcon.symm),
            get_set_ne _ _ _ _ hRNv hKv (by exact fun hcon => hRK hcon),
            get_set_ne _ _ _ _ hRNv hKv (by exact fun hcon => hRK hcon),
            chk_get]
          exact get_unchecked_self _ f _ hb8 hKv hfv hKF
        · rw [get_after_cgo_branch,
            get_set_ne _ r.pos _ _ hrv hRNv
              (by rw [hrpos]; exact fun hcon => hRC hcon.symm),
            get_set_self _ _ _ hwf1 hRNv]
        · rw [get_after_cgo_branch,
            get_set_ne _ r.pos _ _ hrv hfv
              (by rw [hrpos]; exact fun hcon => hFC hcon.symm),
            get_set_ne _ _ _ _ hRNv hfv (by exact fun hcon => hRF hcon),
            get_set_ne _ _ _ _ hRNv hfv (by exact fun hcon => hRF hcon),
            chk_get]
          exact get_unchecked_src _ f _ hb8 hfv
        · rw [get_after_cgo_branch]
          exact get_set_self2 _ r.pos m.cellTo none hwf2 hrv hrpos.symm
        · rw [kings_after_cgo_branch, set_kings, set_kings, set_kings, chk_self]

/-- C6 (amended) witness: proper white kingside castling, e1 king onto the h1
rook, in `castleReadyState`. -/
theorem C6_witness :
    (moveOk (castleReadyState.make_move ⟨⟨5, 1⟩, ⟨8, 1⟩⟩) = true ↔
      ((intRange 6 8).all
          (fun x => (castleReadyState.get_by_cell ⟨x, 1⟩).isNone) = true ∧
        castleReadyState.is_king_in_check 1 = false ∧
        castleReadyState.is_cell_under_attack ⟨6, 1⟩ (-1) = false ∧
        ∃ sc, rookShift (State.change_king_position_by_color
              ((fig .king 1 5 1).unchecked_move castleReadyState.get_copy ⟨7, 1⟩)
              ⟨7, 1⟩ 1)
            ⟨8, 1⟩ ⟨6, 1⟩ = .ok sc ∧
          sc.is_king_in_check 1 = false)) ∧
    (∀ e, castleReadyState.make_move ⟨⟨5, 1⟩, ⟨8, 1⟩⟩ = .error e →
      e = castleReadyState ∨ ∃ em, e = castleReadyState.extendMoves [em]) ∧
    (∀ s1, castleReadyState.make_move ⟨⟨5, 1⟩, ⟨8, 1⟩⟩ = .ok s1 →
      s1.get_by_cell ⟨7, 1⟩ = some ((fig .king 1 5 1).moved castleReadyState ⟨7, 1⟩) ∧
      s1.get_by_cell ⟨6, 1⟩ = some { fig .rook 1 8 1 with pos := ⟨6, 1⟩ } ∧
      s1.get_by_cell ⟨5, 1⟩ = none ∧
      s1.get_by_cell ⟨8, 1⟩ = none ∧
      s1.get_king_position_by_color 1 = ⟨7, 1⟩) :=
  C6_castling_characterization castleReadyState ⟨⟨5, 1⟩, ⟨8, 1⟩⟩
    (fig .king 1 5 1) (fig .rook 1 8 1)
    (by decide) (by decide) rfl rfl (by decide) rfl rfl rfl rfl (by decide) (by decide)

end Chess
